import Mathlib

/-!
Verification of the Kuramoto oscillator simulator.

This file gives a shallow embedding of the simulation core — the
`KuramotoModel` engine, the `AttentionFieldModel` spatial engine, the five
network-topology generators and the run-metrics utility — and proves the
stated invariants about them.  Real-valued code is embedded over `ℝ`
(transcendental functions are those of Mathlib); the topology generators,
whose arithmetic is only comparisons and floors of random draws, are
embedded computably over `ℚ`.  Ambient calls to the uniform random source
are made explicit: each function that draws randomness takes a stream
`u : ℕ → ℚ` (or `ℕ → ℝ`) of the successive values returned by the source,
consumed left to right exactly as the source consumes them.
-/

/-! ### Phase wrapping

Every integration step ends with
`while (theta[i] > Math.PI) theta[i] -= 2*Math.PI;`
`while (theta[i] < -Math.PI) theta[i] += 2*Math.PI;`.
The first loop, started at `x > π`, performs the least number of
subtractions of `2π` bringing the value to at most `π`, namely
`⌈(x − π)/(2π)⌉`; the second loop is symmetric.  `wrapDown`/`wrapUp` are
these closed forms of the two loops, and `wrapPhase` is their sequential
composition, exactly as in the source. -/

/-- Closed form of the loop `while (x > π) x -= 2π`. -/
noncomputable def wrapDown (x : ℝ) : ℝ :=
  if Real.pi < x then x - 2 * Real.pi * ⌈(x - Real.pi) / (2 * Real.pi)⌉ else x

/-- Closed form of the loop `while (x < -π) x += 2π`. -/
noncomputable def wrapUp (x : ℝ) : ℝ :=
  if x < -Real.pi then x + 2 * Real.pi * ⌈(-Real.pi - x) / (2 * Real.pi)⌉ else x

/-- The phase wrap performed at the end of every RK4 step: the subtracting
loop followed by the adding loop. -/
noncomputable def wrapPhase (x : ℝ) : ℝ := wrapUp (wrapDown x)

lemma two_pi_pos : (0 : ℝ) < 2 * Real.pi := by positivity

lemma wrapDown_le (x : ℝ) : wrapDown x ≤ Real.pi := by
  unfold wrapDown
  split
  · rename_i h
    have hc : (x - Real.pi) / (2 * Real.pi) ≤ (⌈(x - Real.pi) / (2 * Real.pi)⌉ : ℝ) :=
      Int.le_ceil _
    have := (div_le_iff₀ two_pi_pos).mp hc
    linarith [this]
  · linarith [le_of_not_lt (by assumption)]

lemma wrapDown_gt (x : ℝ) (h : Real.pi < x) : -Real.pi < wrapDown x := by
  unfold wrapDown
  rw [if_pos h]
  have hc : (⌈(x - Real.pi) / (2 * Real.pi)⌉ : ℝ) < (x - Real.pi) / (2 * Real.pi) + 1 :=
    Int.ceil_lt_add_one _
  have h2 : 2 * Real.pi * (⌈(x - Real.pi) / (2 * Real.pi)⌉ : ℝ) <
      (x - Real.pi) + 2 * Real.pi := by
    have := mul_lt_mul_of_pos_left hc two_pi_pos
    calc 2 * Real.pi * (⌈(x - Real.pi) / (2 * Real.pi)⌉ : ℝ)
        < 2 * Real.pi * ((x - Real.pi) / (2 * Real.pi) + 1) := this
      _ = (x - Real.pi) + 2 * Real.pi := by field_simp
  linarith

lemma wrapDown_eq_of_le (x : ℝ) (h : x ≤ Real.pi) : wrapDown x = x := by
  unfold wrapDown
  rw [if_neg (not_lt.mpr h)]

lemma wrapUp_ge (x : ℝ) (h : x < -Real.pi) : -Real.pi ≤ wrapUp x := by
  unfold wrapUp
  rw [if_pos h]
  have hc : (-Real.pi - x) / (2 * Real.pi) ≤ (⌈(-Real.pi - x) / (2 * Real.pi)⌉ : ℝ) :=
    Int.le_ceil _
  have := (div_le_iff₀ two_pi_pos).mp hc
  linarith

lemma wrapUp_lt (x : ℝ) (h : x < -Real.pi) : wrapUp x < Real.pi := by
  unfold wrapUp
  rw [if_pos h]
  have hc : (⌈(-Real.pi - x) / (2 * Real.pi)⌉ : ℝ) < (-Real.pi - x) / (2 * Real.pi) + 1 :=
    Int.ceil_lt_add_one _
  have h2 : 2 * Real.pi * (⌈(-Real.pi - x) / (2 * Real.pi)⌉ : ℝ) <
      (-Real.pi - x) + 2 * Real.pi := by
    have := mul_lt_mul_of_pos_left hc two_pi_pos
    calc 2 * Real.pi * (⌈(-Real.pi - x) / (2 * Real.pi)⌉ : ℝ)
        < 2 * Real.pi * ((-Real.pi - x) / (2 * Real.pi) + 1) := this
      _ = (-Real.pi - x) + 2 * Real.pi := by field_simp
  linarith

lemma wrapUp_eq_of_ge (x : ℝ) (h : -Real.pi ≤ x) : wrapUp x = x := by
  unfold wrapUp
  rw [if_neg (not_lt.mpr h)]

/-- After the two wrap loops, every phase lies in the closed interval
`[−π, π]`. -/
lemma wrapPhase_mem_Icc (x : ℝ) : wrapPhase x ∈ Set.Icc (-Real.pi) Real.pi := by
  unfold wrapPhase
  by_cases h : Real.pi < x
  · have h1 := wrapDown_gt x h
    have h2 := wrapDown_le x
    rw [wrapUp_eq_of_ge _ (le_of_lt h1)]
    exact ⟨le_of_lt h1, h2⟩
  · rw [wrapDown_eq_of_le x (not_lt.mp h)]
    by_cases h' : x < -Real.pi
    · exact ⟨wrapUp_ge x h', le_of_lt (wrapUp_lt x h')⟩
    · rw [wrapUp_eq_of_ge x (not_lt.mp h')]
      exact ⟨not_lt.mp h', not_lt.mp h⟩

lemma wrapPhase_eq_of_mem (x : ℝ) (h : x ∈ Set.Icc (-Real.pi) Real.pi) :
    wrapPhase x = x := by
  unfold wrapPhase
  rw [wrapDown_eq_of_le x h.2, wrapUp_eq_of_ge x h.1]

/-- The source's `wrapPhase` only shifts its argument by an integer multiple of `2π`. -/
lemma wrapPhase_sub_int_mul (x : ℝ) : ∃ m : ℤ, wrapPhase x = x - 2 * Real.pi * m := by
  unfold wrapPhase wrapDown wrapUp
  split
  · split
    · exact ⟨⌈(x - Real.pi) / (2 * Real.pi)⌉ -
        ⌈(-Real.pi - (x - 2 * Real.pi * ⌈(x - Real.pi) / (2 * Real.pi)⌉)) / (2 * Real.pi)⌉,
        by push_cast; ring⟩
    · exact ⟨⌈(x - Real.pi) / (2 * Real.pi)⌉, by ring⟩
  · split
    · exact ⟨-⌈(-Real.pi - x) / (2 * Real.pi)⌉, by push_cast; ring⟩
    · exact ⟨0, by push_cast; ring⟩

lemma wrapPhase_eq_pi_imp (x : ℝ) (h : wrapPhase x = Real.pi) : Real.pi ≤ x := by
  by_contra hx
  push_neg at hx
  unfold wrapPhase at h
  rw [wrapDown_eq_of_le x (le_of_lt hx)] at h
  by_cases h' : x < -Real.pi
  · exact absurd h (ne_of_lt (wrapUp_lt x h'))
  · rw [wrapUp_eq_of_ge x (not_lt.mp h')] at h
    exact absurd h (ne_of_lt hx)

lemma wrapPhase_eq_neg_pi_imp (x : ℝ) (h : wrapPhase x = -Real.pi) : x ≤ -Real.pi := by
  by_contra hx
  push_neg at hx
  unfold wrapPhase at h
  by_cases hp : Real.pi < x
  · have h1 := wrapDown_gt x hp
    rw [wrapUp_eq_of_ge _ (le_of_lt h1)] at h
    exact absurd h (ne_of_gt h1)
  · rw [wrapDown_eq_of_le x (not_lt.mp hp), wrapUp_eq_of_ge x (le_of_lt hx)] at h
    exact absurd h (ne_of_gt hx)

/-- A step of the uncoupled recurrence commutes with wrapping: provided the
running unwrapped sum stays on the correct side of the interval (which holds
along any trajectory started inside `[−π, π]`), wrapping the running value
before adding the increment gives the same result as wrapping the plain sum. -/
lemma wrapPhase_wrapPhase_add (s δ : ℝ) (h₀ : 0 ≤ δ → -Real.pi ≤ s)
    (h₁ : δ ≤ 0 → s ≤ Real.pi) :
    wrapPhase (wrapPhase s + δ) = wrapPhase (s + δ) := by
  obtain ⟨m, hm⟩ := wrapPhase_sub_int_mul s
  obtain ⟨a, ha⟩ := wrapPhase_sub_int_mul (wrapPhase s + δ)
  obtain ⟨b, hb⟩ := wrapPhase_sub_int_mul (s + δ)
  have hw := wrapPhase_mem_Icc s
  have hL := wrapPhase_mem_Icc (wrapPhase s + δ)
  have hR := wrapPhase_mem_Icc (s + δ)
  set L := wrapPhase (wrapPhase s + δ) with hLdef
  set R := wrapPhase (s + δ) with hRdef
  have hdiff : L - R = 2 * Real.pi * (-(m : ℝ) - a + b) := by
    rw [ha, hb, hm]; ring
  have hk : ∃ k : ℤ, L - R = 2 * Real.pi * k := ⟨-m - a + b, by push_cast [hdiff]; ring⟩
  obtain ⟨k, hkk⟩ := hk
  have hbound : |L - R| ≤ 2 * Real.pi := by
    have h1 : |L - R| ≤ |L| + |R| := abs_sub L R
    have h2 : |L| ≤ Real.pi := abs_le.mpr ⟨hL.1, hL.2⟩
    have h3 : |R| ≤ Real.pi := abs_le.mpr ⟨hR.1, hR.2⟩
    linarith
  have hkabs : |(k : ℝ)| ≤ 1 := by
    rw [hkk] at hbound
    rw [abs_mul, abs_of_pos two_pi_pos] at hbound
    nlinarith [two_pi_pos, abs_nonneg ((k : ℝ))]
  have hk1 : k = -1 ∨ k = 0 ∨ k = 1 := by
    have h5 : ((|k| : ℤ) : ℝ) ≤ 1 := by rw [Int.cast_abs]; exact hkabs
    have h6 : |k| ≤ 1 := by exact_mod_cast h5
    rcases abs_le.mp h6 with ⟨h7, h8⟩
    omega
  rcases hk1 with hk' | hk' | hk'
  · -- L − R = −2π : L = −π and R = π
    exfalso
    rw [hk'] at hkk
    push_cast at hkk
    have hLv : L = -Real.pi := by
      have := hL.1; have := hR.2; linarith
    have hRv : R = Real.pi := by
      have := hL.1; have := hR.2; linarith
    have hug : wrapPhase s + δ ≤ -Real.pi := wrapPhase_eq_neg_pi_imp _ (by rw [← hLdef]; exact hLv)
    have hsd : Real.pi ≤ s + δ := wrapPhase_eq_pi_imp _ (by rw [← hRdef]; exact hRv)
    have hδ : δ ≤ 0 := by have := hw.1; linarith
    have hs : s ≤ Real.pi := h₁ hδ
    have hs' : s = Real.pi := le_antisymm hs (by linarith)
    have hδ' : δ = 0 := by rw [hs'] at hsd; linarith
    have : wrapPhase s = Real.pi := by
      rw [hs']; exact wrapPhase_eq_of_mem _ ⟨by linarith [Real.pi_pos], le_refl _⟩
    rw [this, hδ'] at hug
    linarith [Real.pi_pos]
  · rw [hk'] at hkk; push_cast at hkk; linarith
  · -- L − R = 2π : L = π and R = −π
    exfalso
    rw [hk'] at hkk
    push_cast at hkk
    have hLv : L = Real.pi := by
      have := hL.2; have := hR.1; linarith
    have hRv : R = -Real.pi := by
      have := hL.2; have := hR.1; linarith
    have hug : Real.pi ≤ wrapPhase s + δ := wrapPhase_eq_pi_imp _ (by rw [← hLdef]; exact hLv)
    have hsd : s + δ ≤ -Real.pi := wrapPhase_eq_neg_pi_imp _ (by rw [← hRdef]; exact hRv)
    have hδ : 0 ≤ δ := by have := hw.2; linarith
    have hs : -Real.pi ≤ s := h₀ hδ
    have hs' : s = -Real.pi := le_antisymm (by linarith) hs
    have hδ' : δ = 0 := by rw [hs'] at hsd; linarith
    have : wrapPhase s = -Real.pi := by
      rw [hs']; exact wrapPhase_eq_of_mem _ ⟨le_refl _, by linarith [Real.pi_pos]⟩
    rw [this, hδ'] at hug
    linarith [Real.pi_pos]

/-! ### Kuramoto Model Engine

Shallow embedding of `KuramotoModel` (src/kuramoto-viz/src/App.jsx).
Phase and frequency arrays are embedded as total functions `ℕ → ℝ`; the
loops of the source only read and write indices `< N`, so entries at
indices `≥ N` are carried along unchanged.  The ambient `Math.random()`
calls are made explicit: `initialize` takes the stream of uniform draws it
consumes (three per oscillator: one for the phase, two for the Box–Muller
transform), and `step` takes, for each of its four derivative evaluations,
the vector of normal variates produced by `randomNormal(0, 0.1)`. -/

/-- One history record triple of the oscillator ensemble. -/
structure KHistory where
  time : List ℝ
  orderParameter : List ℝ
  phases : List (ℕ → ℝ)

/-- The mutable state of a `KuramotoModel` instance. -/
structure KuramotoModel where
  N : ℕ
  K : ℝ
  dt : ℝ
  noiseLevel : ℝ
  phaseLag : ℝ
  theta : ℕ → ℝ
  omega : ℕ → ℝ
  adjacency : Option (ℕ → ℕ → ℝ)
  time : ℝ
  history : KHistory
  maxHistoryLength : ℕ

namespace KuramotoModel

/-- The source's `randomNormal(mean, stdDev)` via the Box–Muller transform, with its two
uniform draws `u1`, `u2` explicit. -/
noncomputable def randomNormal (mean stdDev u1 u2 : ℝ) : ℝ :=
  Real.sqrt (-2.0 * Real.log u1) * Real.cos (2.0 * Real.pi * u2) * stdDev + mean

/-- The source's `initialize()`: random phases in `[−π, π)`, frequencies from
`randomNormal(0, 1)`, time and history reset.  Oscillator `i` consumes the
draws `u (3i)`, `u (3i+1)`, `u (3i+2)`. -/
noncomputable def initState (u : ℕ → ℝ) (m : KuramotoModel) : KuramotoModel :=
  { m with
    theta := fun i => (u (3 * i) * 2 - 1) * Real.pi
    omega := fun i => randomNormal 0 1 (u (3 * i + 1)) (u (3 * i + 2))
    time := 0
    history := ⟨[], [], []⟩ }

/-- JavaScript `config.x || default` for an optional non-negative integer
configuration entry: an explicit `0` is falsy and is replaced by the
default, exactly like an absent entry. -/
def jsOrNat (x : Option ℕ) (d : ℕ) : ℕ :=
  match x with
  | none => d
  | some v => if v = 0 then d else v

/-- JavaScript `config.x || default` for an optional real configuration
entry: an explicit `0` is falsy and is replaced by the default. -/
noncomputable def jsOrReal (x : Option ℝ) (d : ℝ) : ℝ :=
  match x with
  | none => d
  | some v => if v = 0 then d else v

/-- Constructor configuration object; absent fields are `none`. -/
structure KConfig where
  N : Option ℕ := none
  K : Option ℝ := none
  dt : Option ℝ := none
  noiseLevel : Option ℝ := none
  phaseLag : Option ℝ := none

/-- The `KuramotoModel` constructor: defaults `N=50`, `K=2.0`, `dt=0.05`,
`noiseLevel=0`, `phaseLag=0`, no adjacency, `maxHistoryLength = 10000`,
followed by `initialize()`. -/
noncomputable def create (c : KConfig) (u : ℕ → ℝ) : KuramotoModel :=
  initState u
    { N := jsOrNat c.N 50
      K := jsOrReal c.K 2.0
      dt := jsOrReal c.dt 0.05
      noiseLevel := jsOrReal c.noiseLevel 0.0
      phaseLag := jsOrReal c.phaseLag 0.0
      theta := fun _ => 0
      omega := fun _ => 0
      adjacency := none
      time := 0
      history := ⟨[], [], []⟩
      maxHistoryLength := 10000 }

/-- The source's `computeDerivatives(theta)`:
`dθ_i = ω_i [+ noiseLevel·η_i if noiseLevel > 0] + (K/N)·Σ_{j≠i} S_ij·sin(θ_j − θ_i − α)`
where `S_ij` is the adjacency entry, or `1.0` when no network is set.
`η i` is the value returned by `randomNormal(0, 0.1)` for oscillator `i`
during this evaluation. -/
noncomputable def computeDerivatives (η : ℕ → ℝ) (m : KuramotoModel)
    (theta : ℕ → ℝ) : ℕ → ℝ := fun i =>
  m.omega i
    + (if 0 < m.noiseLevel then m.noiseLevel * η i else 0)
    + m.K / (m.N : ℝ) *
        ∑ j ∈ Finset.range m.N,
          if j ≠ i then
            (match m.adjacency with
             | some A => A i j
             | none => 1.0) * Real.sin (theta j - theta i - m.phaseLag)
          else 0

/-- The source's `calculateOrderParameter()`:
`r = sqrt((Σ cos θ_i / N)² + (Σ sin θ_i / N)²)`. -/
noncomputable def calculateOrderParameter (m : KuramotoModel) : ℝ :=
  let sumReal := (∑ i ∈ Finset.range m.N, Real.cos (m.theta i)) / (m.N : ℝ)
  let sumImag := (∑ i ∈ Finset.range m.N, Real.sin (m.theta i)) / (m.N : ℝ)
  Real.sqrt (sumReal * sumReal + sumImag * sumImag)

/-- The source's `recordHistory()`: append the current time, order parameter and a
snapshot of the phase vector.  No eviction is performed — the source keeps
the full history (`maxHistoryLength` is never consulted). -/
noncomputable def recordHistory (m : KuramotoModel) : KuramotoModel :=
  let r := calculateOrderParameter m
  { m with
    history := ⟨m.history.time ++ [m.time],
                m.history.orderParameter ++ [r],
                m.history.phases ++ [m.theta]⟩ }

/-- The source's `step()`: one classical RK4 step of size `dt`, wrapping each resulting
phase, then advancing the clock and recording history.  `η s` is the vector
of fresh normal draws consumed by the `s`-th derivative evaluation. -/
noncomputable def step (η : ℕ → ℕ → ℝ) (m : KuramotoModel) : KuramotoModel :=
  let theta0 := m.theta
  let k1 := computeDerivatives (η 0) m theta0
  let theta1 : ℕ → ℝ := fun i => theta0 i + 0.5 * m.dt * k1 i
  let k2 := computeDerivatives (η 1) m theta1
  let theta2 : ℕ → ℝ := fun i => theta0 i + 0.5 * m.dt * k2 i
  let k3 := computeDerivatives (η 2) m theta2
  let theta3 : ℕ → ℝ := fun i => theta0 i + m.dt * k3 i
  let k4 := computeDerivatives (η 3) m theta3
  recordHistory
    { m with
      theta := fun i =>
        if i < m.N then
          wrapPhase (theta0 i + m.dt / 6.0 * (k1 i + 2 * k2 i + 2 * k3 i + k4 i))
        else theta0 i
      time := m.time + m.dt }

/-- Partial parameter object accepted by `updateParameters`. -/
structure KParams where
  K : Option ℝ := none
  noiseLevel : Option ℝ := none
  phaseLag : Option ℝ := none
  dt : Option ℝ := none
  N : Option ℕ := none

/-- The source's `updateParameters(params)`: merge any provided scalar parameters in
place; if `params.N` is present and differs from the current `N`,
reallocate and `initialize()` (which consumes fresh draws from `u`). -/
noncomputable def updateParameters (u : ℕ → ℝ) (p : KParams)
    (m : KuramotoModel) : KuramotoModel :=
  let m1 := { m with
    K := p.K.getD m.K
    noiseLevel := p.noiseLevel.getD m.noiseLevel
    phaseLag := p.phaseLag.getD m.phaseLag
    dt := p.dt.getD m.dt }
  match p.N with
  | some n => if n ≠ m1.N then initState u { m1 with N := n } else m1
  | none => m1

/-- The source's `setNetwork(adjacencyMatrix)`. -/
def setNetwork (A : ℕ → ℕ → ℝ) (m : KuramotoModel) : KuramotoModel :=
  { m with adjacency := some A }

/-- The source's `n` consecutive `step()` calls; `ηs t` is the noise consumed by the
`t`-th step. -/
noncomputable def stepIter (ηs : ℕ → ℕ → ℕ → ℝ) : ℕ → KuramotoModel → KuramotoModel
  | 0, m => m
  | n + 1, m => step (ηs n) (stepIter ηs n m)

end KuramotoModel

/-! ### Network Topology Generators

Shallow embedding of the generators in src/kuramoto-viz/src/App.jsx.
An adjacency matrix is a total function `ℕ → ℕ → ℕ` which is `0` outside
the cells the generator writes (JavaScript reads of never-written cells
yield `undefined`, which compares unequal to `1` exactly as `0` does).
Random draws are an explicit stream `u : ℕ → ℚ` of the values returned by
`Math.random()`, consumed left to right. -/

/-- Adjacency matrices as total functions; unwritten cells are `0`. -/
abbrev Adj := ℕ → ℕ → ℕ

/-- The all-zero matrix produced by `Array(N).fill(null).map(() => Array(N).fill(0))`. -/
def zeroAdj : Adj := fun _ _ => 0

/-- The single assignment `adjacency[i][j] = v`. -/
def pointSet (A : Adj) (i j v : ℕ) : Adj :=
  fun a b => if a = i ∧ b = j then v else A a b

/-- The paired assignment `adjacency[i][j] = v; adjacency[j][i] = v`. -/
def setSym (A : Adj) (i j v : ℕ) : Adj :=
  fun a b => if (a = i ∧ b = j) ∨ (a = j ∧ b = i) then v else A a b

/-- The source's `Math.floor(q)` for the non-negative products `Math.random() * n`
appearing in the generators. -/
def jsFloorNat (q : ℚ) : ℕ := (⌊q⌋).toNat

/-- The source's `createAllToAll(N)`: nested loops setting `adjacency[i][j] = 1` for all
`i ≠ j` below `N`. -/
def createAllToAll (N : ℕ) : Adj :=
  (List.range N).foldl
    (fun A i =>
      (List.range N).foldl
        (fun A j => if i ≠ j then pointSet A i j 1 else A) A)
    zeroAdj

/-- The source's `createRandom(N, probability)`: every pair `i < j` is connected (both
directions) when its fresh uniform draw is `< probability`.  The state
carries the index of the next unconsumed draw. -/
def createRandom (N : ℕ) (p : ℚ) (u : ℕ → ℚ) : Adj :=
  ((List.range N).foldl
    (fun st i =>
      ((List.range N).filter (fun j => decide (i < j))).foldl
        (fun st j =>
          if u st.2 < p then (setSym st.1 i j 1, st.2 + 1) else (st.1, st.2 + 1))
        st)
    (zeroAdj, 0)).1

/-- Phase 1 of `createSmallWorld`: the ring lattice with offsets
`j = 1 .. ⌊k/2⌋`.  The source computes the second neighbour as
`(i − j + N) % N`; written over `ℕ` as `(i + N − j) % N`, which agrees with
the source whenever `j ≤ N`. -/
def ringLattice (N k : ℕ) : Adj :=
  (List.range N).foldl
    (fun A i =>
      (List.range (k / 2)).foldl
        (fun A dj =>
          let j := dj + 1
          let n1 := (i + j) % N
          let n2 := (i + N - j) % N
          let A1 := setSym A i n1 1
          if n2 ≠ n1 then setSym A1 i n2 1 else A1)
        A)
    zeroAdj

/-- The edge-collection loop of `createSmallWorld`: all pairs `(i, j)` with
`i < j < N` and `adjacency[i][j] === 1`, in row-major order. -/
def swEdges (A : Adj) (N : ℕ) : List (ℕ × ℕ) :=
  (List.range N).flatMap
    (fun i =>
      ((List.range N).filter (fun j => decide (i < j) && decide (A i j = 1))).map
        (fun j => (i, j)))

/-- The rewiring retry loop: while the candidate target is `i` itself or is
already connected to `i`, draw a fresh candidate, for at most 100 attempts.
Returns the final candidate, the next draw index, and whether the loop
ended with fewer than 100 attempts (only then is the new edge added). -/
def retryLoop (N : ℕ) (A : Adj) (i : ℕ) (u : ℕ → ℚ) :
    ℕ → ℕ → ℕ → ℕ × ℕ × Bool
  | 0, nt, t => (nt, t, false)
  | fuel + 1, nt, t =>
    if nt = i ∨ A i nt = 1 then
      retryLoop N A i u fuel (jsFloorNat (u t * (N : ℚ))) (t + 1)
    else (nt, t, true)

/-- Rewiring of a single edge `(i, j)`: with probability `β` remove it and,
if the retry loop finds an admissible target within 100 attempts, attach
`i` to that target; if the attempts are exhausted the removed edge is not
replaced. -/
def rewireEdge (N : ℕ) (β : ℚ) (u : ℕ → ℚ) (st : Adj × ℕ) (e : ℕ × ℕ) :
    Adj × ℕ :=
  if u st.2 < β then
    let A1 := setSym st.1 e.1 e.2 0
    let r := retryLoop N A1 e.1 u 100 (jsFloorNat (u (st.2 + 1) * (N : ℚ))) (st.2 + 2)
    if r.2.2 then (setSym A1 e.1 r.1 1, r.2.1) else (A1, r.2.1)
  else (st.1, st.2 + 1)

/-- The source's `createSmallWorld(N, k, rewiringProb)`: ring lattice, then rewiring of
each collected edge. -/
def createSmallWorld (N k : ℕ) (β : ℚ) (u : ℕ → ℚ) : Adj :=
  let A := ringLattice N k
  ((swEdges A N).foldl (rewireEdge N β u) (A, 0)).1

/-- The source's `createRing(N, k)`: each node paired with the `k` nodes clockwise from
it (both directions written). -/
def createRing (N k : ℕ) : Adj :=
  (List.range N).foldl
    (fun A i =>
      (List.range k).foldl
        (fun A dj => setSym A i ((i + (dj + 1)) % N) 1) A)
    zeroAdj

/-- The source's `degrees[j]` as computed when node `i` is inserted by `createScaleFree`:
the row sum of the current adjacency over columns `< i`. -/
def degreesUpTo (A : Adj) (i j : ℕ) : ℕ := ∑ c ∈ Finset.range i, A j c

/-- The source's `totalDegree` over the existing nodes `< i`. -/
def totalDegreeUpTo (A : Adj) (i : ℕ) : ℕ :=
  ∑ j ∈ Finset.range i, degreesUpTo A i j

/-- The roulette pass of `createScaleFree`: scan `j = 0, 1, …` keeping a
running degree sum, and return the first `j` not already a target whose
cumulative sum reaches `rand`. -/
def roulette (A : Adj) (i : ℕ) (targets : Finset ℕ) (rand : ℚ) :
    List ℕ → ℚ → Option ℕ
  | [], _ => none
  | j :: rest, sum =>
    let s := sum + (degreesUpTo A i j : ℚ)
    if rand ≤ s ∧ j ∉ targets then some j
    else roulette A i targets rand rest s

/-- The target-selection `while` loop of `createScaleFree`: one roulette
draw per iteration, plus a uniform fallback draw whenever the target set is
still too small.  The source loop has no iteration bound and need not
terminate for adversarial draw streams, so the embedding carries fuel and
returns `none` when the fuel is exhausted while the set is still too
small. -/
def pickTargets (A : Adj) (i need : ℕ) (u : ℕ → ℚ) :
    ℕ → Finset ℕ → ℕ → Option (Finset ℕ × ℕ)
  | 0, tg, t => if need ≤ tg.card then some (tg, t) else none
  | fuel + 1, tg, t =>
    if need ≤ tg.card then some (tg, t)
    else
      let rand := u t * (totalDegreeUpTo A i : ℚ)
      let tg1 := match roulette A i tg rand (List.range i) 0 with
                 | some j => insert j tg
                 | none => tg
      if tg1.card < need then
        pickTargets A i need u fuel (insert (jsFloorNat (u (t + 1) * (i : ℚ))) tg1) (t + 2)
      else
        pickTargets A i need u fuel tg1 (t + 1)

/-- Writing the chosen edges `adjacency[i][t] = adjacency[t][i] = 1`.  The
source iterates the target set in insertion order; every write stores the
same value, so the resulting matrix does not depend on the order and the
embedding folds over the sorted list. -/
def writeTargets (A : Adj) (i : ℕ) (tg : Finset ℕ) : Adj :=
  (tg.sort (· ≤ ·)).foldl (fun A t => setSym A i t 1) A

/-- The seed complete graph of `createScaleFree` on `m0 = min(m+1, N)` nodes. -/
def seedComplete (m0 : ℕ) : Adj :=
  (List.range m0).foldl
    (fun A i =>
      ((List.range m0).filter (fun j => decide (i < j))).foldl
        (fun A j => setSym A i j 1) A)
    zeroAdj

/-- The source's `createScaleFree(N, m)`: seed complete graph, then preferential
attachment of each node `i = m0 .. N−1` to `min(m, i)` distinct targets.
`none` is returned when a selection loop exceeds the provided fuel (the
source would spin in its `while` loop on such a draw stream). -/
def createScaleFree (N m : ℕ) (u : ℕ → ℚ) (fuel : ℕ) : Option Adj :=
  let m0 := min (m + 1) N
  ((List.range (N - m0)).foldl
    (fun st di =>
      match st with
      | none => none
      | some (A, t) =>
        let i := m0 + di
        match pickTargets A i (min m i) u fuel ∅ t with
        | none => none
        | some (tg, t') => some (writeTargets A i tg, t'))
    (some (seedComplete m0, 0))).map (·.1)

/-! ### Attention Field Engine

Shallow embedding of `AttentionFieldModel`
(src/kuramoto-viz/src/core/attentionField.js).  Grid fields are total
functions indexed by the flattened cell index `idx = row*gridSize + col`;
the loops of the source only touch indices `< N = gridSize²`.
`spatialWeights` is the flat `N*N`-indexed weight vector of the source. -/

/-- A moving stimulus object as stored in `stimulusObjects`. -/
structure StimObj where
  id : String
  x : ℝ
  y : ℝ
  vx : ℝ
  vy : ℝ
  radius : ℝ
  intensity : ℝ
  features : ℕ → ℝ

/-- One tracked-object report. -/
structure Tracked where
  id : String
  attention : ℝ
  position : ℝ × ℝ

/-- The ring-buffer history of the attention field. -/
structure AHistory where
  time : List ℝ
  attentionMap : List (List ℝ)
  trackedObjects : List (List Tracked)

/-- The mutable state of an `AttentionFieldModel` instance. -/
structure AttentionFieldModel where
  gridSize : ℕ
  N : ℕ
  K : ℝ
  dt : ℝ
  noiseLevel : ℝ
  phaseLag : ℝ
  K_stim : ℝ
  K_feat : ℝ
  spatialRange : ℝ
  spatialDecay : ℝ
  numFeatures : ℕ
  theta : ℕ → ℝ
  omega : ℕ → ℝ
  stimulus : ℕ → ℝ
  features : ℕ → ℕ → ℝ
  stimulusObjects : List StimObj
  time : ℝ
  history : AHistory
  adjacency : Option (ℕ → ℕ → ℝ)
  spatialWeights : ℕ → ℝ

namespace AttentionFieldModel

/-- The source's `computeSpatialWeights()`: for the flat pair index `idx1 * N + idx2`,
weight `exp(−decay·dist)` when the Euclidean distance of the two cells is
at most `spatialRange`, `0` beyond the range and on the diagonal.  The
source tabulates exactly these values for all `idx1, idx2 < N`. -/
noncomputable def computeSpatialWeights (g : ℕ) (range decay : ℝ) : ℕ → ℝ :=
  fun flat =>
    let n := g * g
    let idx1 := flat / n
    let idx2 := flat % n
    if idx1 = idx2 then 0
    else
      let i := idx1 / g
      let j := idx1 % g
      let k := idx2 / g
      let l := idx2 % g
      let dist := Real.sqrt (((i : ℝ) - k) ^ 2 + ((j : ℝ) - l) ^ 2)
      if dist ≤ range then Real.exp (-decay * dist) else 0

/-- The source's `initialize()`: random phases, frequencies from `randomNormal(0, 0.5)`,
zero stimulus, neutral `0.5` features, time and history reset.  Cell `idx`
consumes draws `u (3·idx) … u (3·idx + 2)`. -/
noncomputable def initState (u : ℕ → ℝ) (m : AttentionFieldModel) :
    AttentionFieldModel :=
  { m with
    theta := fun idx => (u (3 * idx) * 2 - 1) * Real.pi
    omega := fun idx => KuramotoModel.randomNormal 0 0.5 (u (3 * idx + 1)) (u (3 * idx + 2))
    stimulus := fun _ => 0.0
    features := fun _ _ => 0.5
    time := 0
    history := ⟨[], [], []⟩ }

/-- Constructor configuration object; absent entries are `none`. -/
structure AConfig where
  gridSize : Option ℕ := none
  K : Option ℝ := none
  dt : Option ℝ := none
  noiseLevel : Option ℝ := none
  phaseLag : Option ℝ := none
  K_stim : Option ℝ := none
  K_feat : Option ℝ := none
  spatialRange : Option ℝ := none
  spatialDecay : Option ℝ := none
  numFeatures : Option ℕ := none

/-- The `AttentionFieldModel` constructor with its documented defaults,
followed by the spatial-weight precomputation and `initialize()`. -/
noncomputable def create (c : AConfig) (u : ℕ → ℝ) : AttentionFieldModel :=
  let g := KuramotoModel.jsOrNat c.gridSize 32
  initState u
    { gridSize := g
      N := g * g
      K := KuramotoModel.jsOrReal c.K 2.0
      dt := KuramotoModel.jsOrReal c.dt 0.05
      noiseLevel := KuramotoModel.jsOrReal c.noiseLevel 0.0
      phaseLag := KuramotoModel.jsOrReal c.phaseLag 0.0
      K_stim := KuramotoModel.jsOrReal c.K_stim 1.5
      K_feat := KuramotoModel.jsOrReal c.K_feat 2.0
      spatialRange := KuramotoModel.jsOrReal c.spatialRange 4
      spatialDecay := KuramotoModel.jsOrReal c.spatialDecay 0.3
      numFeatures := KuramotoModel.jsOrNat c.numFeatures 3
      theta := fun _ => 0
      omega := fun _ => 0
      stimulus := fun _ => 0
      features := fun _ _ => 0
      stimulusObjects := []
      time := 0
      history := ⟨[], [], []⟩
      adjacency := none
      spatialWeights := computeSpatialWeights g
        (KuramotoModel.jsOrReal c.spatialRange 4)
        (KuramotoModel.jsOrReal c.spatialDecay 0.3) }

/-- The partial object accepted by `addStimulusObject`; absent fields are
`none`. -/
structure ObjInput where
  id : Option String := none
  x : Option ℝ := none
  y : Option ℝ := none
  vx : Option ℝ := none
  vy : Option ℝ := none
  radius : Option ℝ := none
  intensity : Option ℝ := none
  features : Option (ℕ → ℝ) := none

/-- JavaScript `obj.f || default` for an optional numeric field: both an
absent field and an explicit `0` (falsy) are replaced by the default. -/
noncomputable def jsOrField (x : Option ℝ) (d : ℝ) : ℝ :=
  match x with
  | none => d
  | some v => if v = 0 then d else v

/-- The source's `addStimulusObject(obj)`: push an object whose missing or falsy fields
are replaced by the defaults (`id` falls back to a fresh random string,
here the explicit argument `freshId`; position defaults to the grid
centre, velocity to `0`, radius to `3`, intensity to `1.0`, features to
neutral `0.5`). -/
noncomputable def addStimulusObject (freshId : String) (o : ObjInput)
    (m : AttentionFieldModel) : AttentionFieldModel :=
  { m with
    stimulusObjects := m.stimulusObjects ++
      [{ id := match o.id with
              | none => freshId
              | some s => if s = "" then freshId else s
         x := jsOrField o.x ((m.gridSize : ℝ) / 2)
         y := jsOrField o.y ((m.gridSize : ℝ) / 2)
         vx := jsOrField o.vx 0
         vy := jsOrField o.vy 0
         radius := jsOrField o.radius 3
         intensity := jsOrField o.intensity 1.0
         features := o.features.getD (fun _ => 0.5) }] }

/-- Position integration and boundary bounce of one object inside
`updateStimulusField()`. -/
noncomputable def moveObj (g : ℕ) (dt : ℝ) (o : StimObj) : StimObj :=
  let x1 := o.x + o.vx * dt
  let y1 := o.y + o.vy * dt
  let padding : ℝ := 2
  let bx := x1 < padding ∨ (g : ℝ) - padding ≤ x1
  let by' := y1 < padding ∨ (g : ℝ) - padding ≤ y1
  { o with
    x := if bx then max padding (min ((g : ℝ) - padding) x1) else x1
    y := if by' then max padding (min ((g : ℝ) - padding) y1) else y1
    vx := if bx then o.vx * (-0.95) else o.vx
    vy := if by' then o.vy * (-0.95) else o.vy }

/-- Projection of one object onto the stimulus field: within `radius * 2`
of the object, the cell keeps the maximum of its current value and the
Gaussian activation `intensity·exp(−½(dist/radius)²)`. -/
noncomputable def projStim (g : ℕ) (o : StimObj) (stim : ℕ → ℝ) : ℕ → ℝ :=
  fun idx =>
    if idx < g * g then
      let i := idx / g
      let j := idx % g
      let dist := Real.sqrt (((i : ℝ) - o.x) ^ 2 + ((j : ℝ) - o.y) ^ 2)
      if dist ≤ o.radius * 2 then
        max (stim idx) (o.intensity * Real.exp (-0.5 * (dist / o.radius) ^ 2))
      else stim idx
    else stim idx

/-- Feature blending of one object: where its activation exceeds `0.1`,
linearly blend the cell's features towards the object's features. -/
noncomputable def projFeat (g : ℕ) (nf : ℕ) (o : StimObj) (feat : ℕ → ℕ → ℝ) :
    ℕ → ℕ → ℝ :=
  fun idx f =>
    if idx < g * g ∧ f < nf then
      let i := idx / g
      let j := idx % g
      let dist := Real.sqrt (((i : ℝ) - o.x) ^ 2 + ((j : ℝ) - o.y) ^ 2)
      let activation := o.intensity * Real.exp (-0.5 * (dist / o.radius) ^ 2)
      if dist ≤ o.radius * 2 ∧ 0.1 < activation then
        feat idx f * (1 - activation) + o.features f * activation
      else feat idx f
    else feat idx f

/-- The source's `updateStimulusField()`: clear stimulus to `0` and features to the
neutral `0.5`, then for each object in list order advance and bounce its
position and project it onto the two fields. -/
noncomputable def updateStimulusField (m : AttentionFieldModel) :
    AttentionFieldModel :=
  let st := m.stimulusObjects.foldl
    (fun (st : List StimObj × (ℕ → ℝ) × (ℕ → ℕ → ℝ)) o =>
      let o' := moveObj m.gridSize m.dt o
      (st.1 ++ [o'], projStim m.gridSize o' st.2.1,
        projFeat m.gridSize m.numFeatures o' st.2.2))
    ([], fun _ => 0, fun _ _ => 0.5)
  { m with stimulusObjects := st.1, stimulus := st.2.1, features := st.2.2 }

/-- The source's `computeFeatureSimilarity(idx1, idx2)`: cosine similarity of the two
feature vectors, `0` when either has zero magnitude. -/
noncomputable def computeFeatureSimilarity (m : AttentionFieldModel)
    (idx1 idx2 : ℕ) : ℝ :=
  let dotProduct := ∑ f ∈ Finset.range m.numFeatures, m.features idx1 f * m.features idx2 f
  let mag1 := ∑ f ∈ Finset.range m.numFeatures, m.features idx1 f * m.features idx1 f
  let mag2 := ∑ f ∈ Finset.range m.numFeatures, m.features idx2 f * m.features idx2 f
  if mag1 = 0 ∨ mag2 = 0 then 0
  else dotProduct / (Real.sqrt mag1 * Real.sqrt mag2)

/-- The coupling weight used for the pair `(idx, jdx)`: the adjacency
override when present (the source re-derives the flat indices from the
row/column decomposition), else the precomputed flat spatial weight. -/
noncomputable def pairWeight (m : AttentionFieldModel) (idx jdx : ℕ) : ℝ :=
  match m.adjacency with
  | some A =>
      A (idx / m.gridSize * m.gridSize + idx % m.gridSize)
        (jdx / m.gridSize * m.gridSize + jdx % m.gridSize)
  | none => m.spatialWeights (idx * m.N + jdx)

/-- The source's `computeDerivatives(theta)` of the attention field:
natural frequency, optional noise, and the stimulus-gated plus
feature-similarity-gated coupling sums scaled by `(K/N)·K_stim` and
`(K/N)·K_feat`. -/
noncomputable def computeDerivatives (η : ℕ → ℝ) (m : AttentionFieldModel)
    (theta : ℕ → ℝ) : ℕ → ℝ := fun idx =>
  let stimulusCoupling :=
    ∑ jdx ∈ Finset.range m.N,
      if jdx ≠ idx then
        let weight := pairWeight m idx jdx
        if 0 < weight then
          weight * ((m.stimulus idx + m.stimulus jdx) / 2) *
            Real.sin (theta jdx - theta idx - m.phaseLag)
        else 0
      else 0
  let featureCoupling :=
    ∑ jdx ∈ Finset.range m.N,
      if jdx ≠ idx then
        let weight := pairWeight m idx jdx
        if 0 < weight then
          let featureSim := computeFeatureSimilarity m idx jdx
          if 0.5 < featureSim then
            weight * featureSim * Real.sin (theta jdx - theta idx - m.phaseLag)
          else 0
        else 0
      else 0
  m.omega idx
    + (if 0 < m.noiseLevel then m.noiseLevel * η idx else 0)
    + m.K / (m.N : ℝ) * (m.K_stim * stimulusCoupling + m.K_feat * featureCoupling)

/-- The source's `calculateAttentionMap()`: the local order parameter of each cell over
its spatial neighbours (cells with positive precomputed spatial weight),
`0` for a cell with no neighbours. -/
noncomputable def calculateAttentionMap (m : AttentionFieldModel) : ℕ → ℝ :=
  fun idx =>
    let nbrs := (Finset.range m.N).filter (fun jdx => 0 < m.spatialWeights (idx * m.N + jdx))
    let count := nbrs.card
    if 0 < count then
      let sumReal := (∑ jdx ∈ nbrs, Real.cos (m.theta jdx)) / (count : ℝ)
      let sumImag := (∑ jdx ∈ nbrs, Real.sin (m.theta jdx)) / (count : ℝ)
      Real.sqrt (sumReal * sumReal + sumImag * sumImag)
    else 0

/-- The source's `detectTrackedObjects()`: average the attention map over the 3×3
neighbourhood (modular indexing) around each object's integer position and
report the objects whose average exceeds `0.6`.  The source computes the
cell indices with JavaScript `%`, which agrees with `Int.emod` for the
non-negative values arising from in-grid objects. -/
noncomputable def detectTrackedObjects (m : AttentionFieldModel) : List Tracked :=
  let attentionMap := calculateAttentionMap m
  m.stimulusObjects.foldl
    (fun acc obj =>
      let cx := ⌊obj.x⌋
      let cy := ⌊obj.y⌋
      let offsets : List (ℤ × ℤ) :=
        [(-1, -1), (-1, 0), (-1, 1), (0, -1), (0, 0), (0, 1), (1, -1), (1, 0), (1, 1)]
      let totalAttention := (offsets.map (fun d =>
        let i := ((cx + d.1 + (m.gridSize : ℤ)) % (m.gridSize : ℤ)).toNat
        let j := ((cy + d.2 + (m.gridSize : ℤ)) % (m.gridSize : ℤ)).toNat
        attentionMap (i * m.gridSize + j))).sum
      let avgAttention := totalAttention / 9
      if 0.6 < avgAttention then
        acc ++ [{ id := obj.id, attention := avgAttention, position := (obj.x, obj.y) }]
      else acc)
    []

/-- The source's `recordHistory()`: push the time, an `Array.from` copy of the attention
map and the tracked-object report, then drop the oldest entry of all three
lists whenever the kept length exceeds 500. -/
noncomputable def recordHistory (m : AttentionFieldModel) : AttentionFieldModel :=
  let attentionMap := calculateAttentionMap m
  let tracked := detectTrackedObjects m
  let t := m.history.time ++ [m.time]
  let a := m.history.attentionMap ++ [(List.range m.N).map attentionMap]
  let tr := m.history.trackedObjects ++ [tracked]
  { m with
    history :=
      if 500 < t.length then ⟨t.drop 1, a.drop 1, tr.drop 1⟩ else ⟨t, a, tr⟩ }

/-- The source's `step()`: advance the stimulus field once, then one RK4 step with
phase wrap, clock advance and history recording. -/
noncomputable def step (η : ℕ → ℕ → ℝ) (m : AttentionFieldModel) :
    AttentionFieldModel :=
  let m0 := updateStimulusField m
  let theta0 := m0.theta
  let k1 := computeDerivatives (η 0) m0 theta0
  let theta1 : ℕ → ℝ := fun i => theta0 i + 0.5 * m0.dt * k1 i
  let k2 := computeDerivatives (η 1) m0 theta1
  let theta2 : ℕ → ℝ := fun i => theta0 i + 0.5 * m0.dt * k2 i
  let k3 := computeDerivatives (η 2) m0 theta2
  let theta3 : ℕ → ℝ := fun i => theta0 i + m0.dt * k3 i
  let k4 := computeDerivatives (η 3) m0 theta3
  recordHistory
    { m0 with
      theta := fun i =>
        if i < m0.N then
          wrapPhase (theta0 i + m0.dt / 6.0 * (k1 i + 2 * k2 i + 2 * k3 i + k4 i))
        else theta0 i
      time := m0.time + m0.dt }

/-- The source's `setNetwork(adjacencyMatrix, …)` (the topology label and parameters it
also stores are presentation data not modelled here). -/
def setNetwork (A : ℕ → ℕ → ℝ) (m : AttentionFieldModel) : AttentionFieldModel :=
  { m with adjacency := some A }

/-- The source's `n` consecutive `step()` calls. -/
noncomputable def stepIter (ηs : ℕ → ℕ → ℕ → ℝ) :
    ℕ → AttentionFieldModel → AttentionFieldModel
  | 0, m => m
  | n + 1, m => step (ηs n) (stepIter ηs n m)

end AttentionFieldModel

/-! ### Run Metrics

Shallow embedding of src/kuramoto-viz/src/utils/runMetrics.js.  A possibly
missing history argument is an `Option`; `parseFloat(x.toFixed(k))` is
modelled as rounding to `k` decimal places, and the float products
`length * 0.1`, `* 0.8`, `* 0.5` inside `Math.floor` as the corresponding
exact natural-number divisions. -/

/-- The source's `parseFloat(x.toFixed(4))`. -/
noncomputable def round4 (x : ℝ) : ℝ := (round (x * 10000) : ℤ) / 10000

/-- The source's `parseFloat(x.toFixed(2))`. -/
noncomputable def round2 (x : ℝ) : ℝ := (round (x * 100) : ℤ) / 100

/-- The source's `Math.min(...l)` for the nonempty lists this code applies it to. -/
def listMin : List ℝ → ℝ
  | [] => 0
  | x :: xs => xs.foldl min x

/-- The source's `Math.max(...l)`. -/
def listMax : List ℝ → ℝ
  | [] => 0
  | x :: xs => xs.foldl max x

/-- The summary object returned by `calculateRunMetrics`. -/
structure RunMetrics where
  finalR : ℝ
  meanR : ℝ
  stdR : ℝ
  minR : ℝ
  maxR : ℝ
  settlingTime : Option ℝ
  converged : Bool
  oscillating : Bool

open Classical in
/-- The source's `calculateSettlingTime(time, r, finalR)`: the first index `i` (searched
up to `length − sustainPeriod`) at which `r[i]` reaches 90% of `finalR` and
stays within the 5% tolerance band around `finalR` for
`sustainPeriod = min(50, ⌊length/10⌋)` consecutive samples; `null` when no
index qualifies. -/
noncomputable def calculateSettlingTime (time r : List ℝ) (finalR : ℝ) :
    Option ℝ :=
  if time.length = 0 then none
  else
    let threshold := 0.9 * finalR
    let tolerance := 0.05 * finalR
    let sustainPeriod := min 50 (r.length / 10)
    ((List.range (r.length - sustainPeriod)).find? (fun i =>
        decide (threshold ≤ r.getD i 0) &&
        decide (∀ j ∈ Finset.Ico i (i + sustainPeriod),
          |r.getD j 0 - finalR| ≤ tolerance))).map
      (fun i => round2 (time.getD i 0))

open Classical in
/-- The source's `checkConvergence(r, finalR, stdR)`: `false` for fewer than 100 points,
else whether the standard deviation of the last 20% of the series is below
`0.05`. -/
noncomputable def checkConvergence (r : List ℝ) (finalR stdR : ℝ) : Bool :=
  if r.length < 100 then false
  else
    let checkStart := r.length * 8 / 10
    let recentR := r.drop checkStart
    let recentMean := recentR.sum / (recentR.length : ℝ)
    let recentVar := (recentR.map (fun v => (v - recentMean) ^ 2)).sum / (recentR.length : ℝ)
    let recentStd := Real.sqrt recentVar
    decide (recentStd < 0.05)

open Classical in
/-- The source's `detectOscillation(r)`: `false` for fewer than 100 points, else whether
more than 5% of the points of the last half of the series are local
extrema (sign changes of the first difference). -/
noncomputable def detectOscillation (r : List ℝ) : Bool :=
  if r.length < 100 then false
  else
    let checkStart := r.length / 2
    let recentR := r.drop checkStart
    let crossings :=
      ((List.range recentR.length).filter (fun i =>
        decide (1 ≤ i) && decide (i + 1 < recentR.length) &&
        decide ((recentR.getD i 0 - recentR.getD (i - 1) 0) *
          (recentR.getD (i + 1) 0 - recentR.getD i 0) < 0))).length
    let crossingRate := (crossings : ℝ) / (recentR.length : ℝ)
    decide ((0.05 : ℝ) < crossingRate)

/-- The source's `calculateRunMetrics(history)`: the all-zero summary for a missing or
empty history; otherwise the statistics of the order-parameter series. -/
noncomputable def calculateRunMetrics (history : Option KHistory) : RunMetrics :=
  match history with
  | none =>
      { finalR := 0, meanR := 0, stdR := 0, minR := 0, maxR := 0
        settlingTime := none, converged := false, oscillating := false }
  | some h =>
      if h.orderParameter.length = 0 then
        { finalR := 0, meanR := 0, stdR := 0, minR := 0, maxR := 0
          settlingTime := none, converged := false, oscillating := false }
      else
        let r := h.orderParameter
        let time := h.time
        let n := r.length
        let finalR := r.getD (n - 1) 0
        let meanR := r.sum / (n : ℝ)
        let variance := (r.map (fun v => (v - meanR) ^ 2)).sum / (n : ℝ)
        let stdR := Real.sqrt variance
        let minR := listMin r
        let maxR := listMax r
        { finalR := round4 finalR
          meanR := round4 meanR
          stdR := round4 stdR
          minR := round4 minR
          maxR := round4 maxR
          settlingTime := calculateSettlingTime time r finalR
          converged := checkConvergence r finalR stdR
          oscillating := detectOscillation r }

/-! ### Basic step properties -/

namespace KuramotoModel

lemma step_N (η : ℕ → ℕ → ℝ) (m : KuramotoModel) : (step η m).N = m.N := rfl

lemma step_K (η : ℕ → ℕ → ℝ) (m : KuramotoModel) : (step η m).K = m.K := rfl

lemma step_dt (η : ℕ → ℕ → ℝ) (m : KuramotoModel) : (step η m).dt = m.dt := rfl

lemma step_noiseLevel (η : ℕ → ℕ → ℝ) (m : KuramotoModel) :
    (step η m).noiseLevel = m.noiseLevel := rfl

lemma step_omega (η : ℕ → ℕ → ℝ) (m : KuramotoModel) : (step η m).omega = m.omega := rfl

lemma stepIter_N (ηs : ℕ → ℕ → ℕ → ℝ) (n : ℕ) (m : KuramotoModel) :
    (stepIter ηs n m).N = m.N := by
  induction n with
  | zero => rfl
  | succ n ih => simp [stepIter, step_N, ih]

lemma stepIter_K (ηs : ℕ → ℕ → ℕ → ℝ) (n : ℕ) (m : KuramotoModel) :
    (stepIter ηs n m).K = m.K := by
  induction n with
  | zero => rfl
  | succ n ih => simp [stepIter, step_K, ih]

lemma stepIter_dt (ηs : ℕ → ℕ → ℕ → ℝ) (n : ℕ) (m : KuramotoModel) :
    (stepIter ηs n m).dt = m.dt := by
  induction n with
  | zero => rfl
  | succ n ih => simp [stepIter, step_dt, ih]

lemma stepIter_noiseLevel (ηs : ℕ → ℕ → ℕ → ℝ) (n : ℕ) (m : KuramotoModel) :
    (stepIter ηs n m).noiseLevel = m.noiseLevel := by
  induction n with
  | zero => rfl
  | succ n ih => simp [stepIter, step_noiseLevel, ih]

lemma stepIter_omega (ηs : ℕ → ℕ → ℕ → ℝ) (n : ℕ) (m : KuramotoModel) :
    (stepIter ηs n m).omega = m.omega := by
  induction n with
  | zero => rfl
  | succ n ih => simp [stepIter, step_omega, ih]

/-- The source's `recordHistory` (hence `step`) appends exactly one entry to each of the
three history lists and never removes one. -/
lemma step_history_lengths (η : ℕ → ℕ → ℝ) (m : KuramotoModel) :
    (step η m).history.time.length = m.history.time.length + 1 ∧
    (step η m).history.orderParameter.length = m.history.orderParameter.length + 1 ∧
    (step η m).history.phases.length = m.history.phases.length + 1 := by
  refine ⟨?_, ?_, ?_⟩ <;> simp [step, recordHistory]

/-- After `n` steps the three history lists have grown by exactly `n`
entries each: no eviction ever takes place. -/
lemma stepIter_history_lengths (ηs : ℕ → ℕ → ℕ → ℝ) (n : ℕ) (m : KuramotoModel) :
    (stepIter ηs n m).history.time.length = m.history.time.length + n ∧
    (stepIter ηs n m).history.orderParameter.length =
      m.history.orderParameter.length + n ∧
    (stepIter ηs n m).history.phases.length = m.history.phases.length + n := by
  induction n with
  | zero => simp [stepIter]
  | succ n ih =>
    obtain ⟨h1, h2, h3⟩ := ih
    obtain ⟨g1, g2, g3⟩ := step_history_lengths (ηs n) (stepIter ηs n m)
    refine ⟨?_, ?_, ?_⟩ <;> simp [stepIter, g1, g2, g3, h1, h2, h3] <;> omega

end KuramotoModel

/-- A demonstration instance: the model built by the constructor with an
empty configuration and the constant draw stream `1/2`. -/
noncomputable def kurDemo : KuramotoModel :=
  KuramotoModel.create {} (fun _ => 1 / 2)

/-- C1 (amended): the ensemble history has no cap at all.  Each `step()`
appends one entry to each of the three history lists and nothing is ever
evicted, so after `n` steps each list holds its initial length plus `n`
entries; the `maxHistoryLength` field is set to 10000 but never consulted. -/
theorem kuramoto_history_grows_without_bound (m : KuramotoModel)
    (ηs : ℕ → ℕ → ℕ → ℝ) (n : ℕ) :
    (KuramotoModel.stepIter ηs n m).history.time.length =
      m.history.time.length + n ∧
    (KuramotoModel.stepIter ηs n m).history.orderParameter.length =
      m.history.orderParameter.length + n ∧
    (KuramotoModel.stepIter ηs n m).history.phases.length =
      m.history.phases.length + n :=
  KuramotoModel.stepIter_history_lengths ηs n m

/-- C1 (counterexample): a freshly constructed model stepped 10001 times
holds 10001 history entries, strictly more than the claimed cap of 10000
(which is the value of the unused `maxHistoryLength` field). -/
theorem kuramoto_history_exceeds_cap :
    (KuramotoModel.stepIter (fun _ _ _ => 0) 10001 kurDemo).history.time.length = 10001 ∧
    10000 < (KuramotoModel.stepIter (fun _ _ _ => 0) 10001 kurDemo).history.time.length ∧
    kurDemo.maxHistoryLength = 10000 := by
  have h := (KuramotoModel.stepIter_history_lengths (fun _ _ _ => 0) 10001 kurDemo).1
  have h0 : kurDemo.history.time.length = 0 := rfl
  rw [h0] at h
  exact ⟨h, by omega, rfl⟩

/-- C9: `setNetwork` only replaces the adjacency field, and
`updateParameters` restricted to the scalar keys (no `N` entry) only
replaces scalar parameters; neither touches the phases, the natural
frequencies, the clock or the history. -/
theorem setNetwork_updateParameters_frame :
    (∀ (m : KuramotoModel) (A : ℕ → ℕ → ℝ),
      (KuramotoModel.setNetwork A m).theta = m.theta ∧
      (KuramotoModel.setNetwork A m).omega = m.omega ∧
      (KuramotoModel.setNetwork A m).time = m.time ∧
      (KuramotoModel.setNetwork A m).history = m.history) ∧
    (∀ (m : KuramotoModel) (u : ℕ → ℝ) (p : KuramotoModel.KParams),
      p.N = none →
      (KuramotoModel.updateParameters u p m).theta = m.theta ∧
      (KuramotoModel.updateParameters u p m).omega = m.omega ∧
      (KuramotoModel.updateParameters u p m).time = m.time ∧
      (KuramotoModel.updateParameters u p m).history = m.history) := by
  constructor
  · intro m A
    exact ⟨rfl, rfl, rfl, rfl⟩
  · intro m u p hN
    simp [KuramotoModel.updateParameters, hN]

/-- Witness for C9 at a concrete model, network and parameter object. -/
theorem setNetwork_updateParameters_frame_witness :
    (KuramotoModel.setNetwork (fun _ _ => 1) kurDemo).theta = kurDemo.theta ∧
    (KuramotoModel.updateParameters (fun _ => 0)
      { K := some 3, noiseLevel := some 0.1 } kurDemo).theta = kurDemo.theta ∧
    (KuramotoModel.updateParameters (fun _ => 0)
      { K := some 3, noiseLevel := some 0.1 } kurDemo).history = kurDemo.history :=
  ⟨(setNetwork_updateParameters_frame.1 kurDemo (fun _ _ => 1)).1,
   (setNetwork_updateParameters_frame.2 kurDemo (fun _ => 0)
     { K := some 3, noiseLevel := some 0.1 } rfl).1,
   (setNetwork_updateParameters_frame.2 kurDemo (fun _ => 0)
     { K := some 3, noiseLevel := some 0.1 } rfl).2.2.2⟩

namespace AttentionFieldModel

lemma updateStimulusField_N (m : AttentionFieldModel) :
    (updateStimulusField m).N = m.N := rfl

lemma attention_step_N (η : ℕ → ℕ → ℝ) (m : AttentionFieldModel) :
    (step η m).N = m.N := rfl

lemma attention_stepIter_N (ηs : ℕ → ℕ → ℕ → ℝ) (n : ℕ) (m : AttentionFieldModel) :
    (stepIter ηs n m).N = m.N := by
  induction n with
  | zero => rfl
  | succ n ih => simp [stepIter, attention_step_N, ih]

/-- The phase stored by `step` at an in-range index is always a wrapped
value. -/
lemma attention_step_theta_wrapped (η : ℕ → ℕ → ℝ) (m : AttentionFieldModel) (i : ℕ)
    (hi : i < m.N) :
    (step η m).theta i ∈ Set.Icc (-Real.pi) Real.pi := by
  simp only [step, recordHistory]
  rw [if_pos (show i < (updateStimulusField m).N from hi)]
  exact wrapPhase_mem_Icc _

end AttentionFieldModel

namespace KuramotoModel

/-- The phase stored by `step` at an in-range index is always a wrapped
value. -/
lemma step_theta_wrapped (η : ℕ → ℕ → ℝ) (m : KuramotoModel) (i : ℕ)
    (hi : i < m.N) :
    (step η m).theta i ∈ Set.Icc (-Real.pi) Real.pi := by
  show (if i < m.N then wrapPhase _ else _) ∈ _
  rw [if_pos hi]
  exact wrapPhase_mem_Icc _

end KuramotoModel

/-- C3 (amended): after any positive number of `step()` calls, each
in-range phase of either engine lies in the closed interval `[−π, π]`.
The wrap loops leave a value of exactly `−π` untouched, so the half-open
interval `(−π, π]` of the claim is not an invariant; the closed interval
is. -/
theorem phase_wrap_closed_interval :
    (∀ (m : KuramotoModel) (ηs : ℕ → ℕ → ℕ → ℝ) (n i : ℕ), 1 ≤ n → i < m.N →
      (KuramotoModel.stepIter ηs n m).theta i ∈ Set.Icc (-Real.pi) Real.pi) ∧
    (∀ (m : AttentionFieldModel) (ηs : ℕ → ℕ → ℕ → ℝ) (n i : ℕ), 1 ≤ n → i < m.N →
      (AttentionFieldModel.stepIter ηs n m).theta i ∈ Set.Icc (-Real.pi) Real.pi) := by
  constructor
  · intro m ηs n i hn hi
    obtain ⟨n', rfl⟩ : ∃ n', n = n' + 1 := ⟨n - 1, by omega⟩
    have : (KuramotoModel.stepIter ηs n' m).N = m.N := KuramotoModel.stepIter_N ηs n' m
    exact KuramotoModel.step_theta_wrapped (ηs n') _ i (by rw [this]; exact hi)
  · intro m ηs n i hn hi
    obtain ⟨n', rfl⟩ : ∃ n', n = n' + 1 := ⟨n - 1, by omega⟩
    have : (AttentionFieldModel.stepIter ηs n' m).N = m.N :=
      AttentionFieldModel.attention_stepIter_N ηs n' m
    exact AttentionFieldModel.attention_step_theta_wrapped (ηs n') _ i
      (by rw [this]; exact hi)

/-- A demonstration attention-field instance built by the constructor with
an empty configuration. -/
noncomputable def attnDemo : AttentionFieldModel :=
  AttentionFieldModel.create {} (fun _ => 1 / 2)

/-- Witness for C3 on both engines at concrete instances. -/
theorem phase_wrap_closed_interval_witness :
    (KuramotoModel.stepIter (fun _ _ _ => 0) 1 kurDemo).theta 0 ∈
      Set.Icc (-Real.pi) Real.pi ∧
    (AttentionFieldModel.stepIter (fun _ _ _ => 0) 1 attnDemo).theta 0 ∈
      Set.Icc (-Real.pi) Real.pi :=
  ⟨phase_wrap_closed_interval.1 kurDemo (fun _ _ _ => 0) 1 0 (by omega)
     (by show 0 < 50; omega),
   phase_wrap_closed_interval.2 attnDemo (fun _ _ _ => 0) 1 0 (by omega)
     (by show 0 < 32 * 32; omega)⟩

/-- The model used to refute the half-open-interval form of the wrap
invariant: a single uncoupled oscillator with natural frequency `−π` and
unit time step. -/
noncomputable def wrapEdgeModel : KuramotoModel :=
  { N := 1
    K := 0
    dt := 1
    noiseLevel := 0
    phaseLag := 0
    theta := fun _ => 0
    omega := fun _ => -Real.pi
    adjacency := none
    time := 0
    history := ⟨[], [], []⟩
    maxHistoryLength := 10000 }

/-- With `K = 0` and `noiseLevel = 0` every derivative evaluation returns
the bare natural frequency. -/
lemma computeDerivatives_uncoupled (η : ℕ → ℝ) (m : KuramotoModel)
    (hK : m.K = 0) (hnoise : m.noiseLevel = 0) (theta : ℕ → ℝ) (i : ℕ) :
    KuramotoModel.computeDerivatives η m theta i = m.omega i := by
  simp [KuramotoModel.computeDerivatives, hK, hnoise]

/-- With `K = 0` and `noiseLevel = 0` one `step()` adds exactly `dt·ω_i`
to each in-range phase and wraps. -/
lemma step_uncoupled (η : ℕ → ℕ → ℝ) (m : KuramotoModel)
    (hK : m.K = 0) (hnoise : m.noiseLevel = 0) (i : ℕ) (hi : i < m.N) :
    (KuramotoModel.step η m).theta i = wrapPhase (m.theta i + m.dt * m.omega i) := by
  simp only [KuramotoModel.step, KuramotoModel.recordHistory]
  rw [if_pos hi]
  rw [computeDerivatives_uncoupled _ _ hK hnoise, computeDerivatives_uncoupled _ _ hK hnoise,
    computeDerivatives_uncoupled _ _ hK hnoise, computeDerivatives_uncoupled _ _ hK hnoise]
  congr 1
  ring

/-- C3 (counterexample): after one `step()` of `wrapEdgeModel` the phase of
oscillator 0 is exactly `−π`, which is not in the half-open interval
`(−π, π]` asserted by the claim. -/
theorem phase_exactly_neg_pi_after_step :
    (KuramotoModel.step (fun _ _ => 0) wrapEdgeModel).theta 0 = -Real.pi ∧
    -Real.pi ∉ Set.Ioc (-Real.pi) Real.pi := by
  constructor
  · rw [step_uncoupled (fun _ _ => 0) wrapEdgeModel rfl rfl 0 (by show 0 < 1; omega)]
    have harg : wrapEdgeModel.theta 0 + wrapEdgeModel.dt * wrapEdgeModel.omega 0
        = -Real.pi := by
      show (0 : ℝ) + (1 : ℝ) * -Real.pi = -Real.pi
      ring
    rw [harg]
    exact wrapPhase_eq_of_mem _ ⟨le_refl _, by linarith [Real.pi_pos]⟩
  · intro h
    exact absurd h.1 (lt_irrefl _)

/-- C4: with `K = 0` and no noise, all four RK4 stage derivatives equal
`ω_i`, so each `step()` adds exactly `ω_i·dt` before wrapping; starting
from wrapped initial phases, after `n` steps each in-range phase equals the
closed-form uncoupled solution `θ_i(0) + ω_i·n·dt` wrapped by the engine's
wrap loops. -/
theorem uncoupled_closed_form (m : KuramotoModel) (ηs : ℕ → ℕ → ℕ → ℝ)
    (hK : m.K = 0) (hnoise : m.noiseLevel = 0)
    (hθ : ∀ i, i < m.N → m.theta i ∈ Set.Icc (-Real.pi) Real.pi)
    (n i : ℕ) (hi : i < m.N) :
    (KuramotoModel.stepIter ηs n m).theta i =
      wrapPhase (m.theta i + m.omega i * (n : ℝ) * m.dt) := by
  induction n with
  | zero =>
    simp only [KuramotoModel.stepIter, Nat.cast_zero]
    rw [show m.theta i + m.omega i * (0 : ℝ) * m.dt = m.theta i by ring]
    exact (wrapPhase_eq_of_mem _ (hθ i hi)).symm
  | succ n ih =>
    have hKn : (KuramotoModel.stepIter ηs n m).K = 0 := by
      rw [KuramotoModel.stepIter_K]; exact hK
    have hnn : (KuramotoModel.stepIter ηs n m).noiseLevel = 0 := by
      rw [KuramotoModel.stepIter_noiseLevel]; exact hnoise
    have hin : i < (KuramotoModel.stepIter ηs n m).N := by
      rw [KuramotoModel.stepIter_N]; exact hi
    have hstep := step_uncoupled (ηs n) (KuramotoModel.stepIter ηs n m)
      hKn hnn i hin
    rw [show KuramotoModel.stepIter ηs (n + 1) m =
      KuramotoModel.step (ηs n) (KuramotoModel.stepIter ηs n m) from rfl, hstep]
    rw [KuramotoModel.stepIter_dt, KuramotoModel.stepIter_omega, ih]
    set s := m.theta i + m.omega i * (n : ℝ) * m.dt with hs
    set δ := m.dt * m.omega i with hδ
    have hswap : s + δ = m.theta i + m.omega i * ((n : ℝ) + 1) * m.dt := by
      rw [hs, hδ]; ring
    have hside₀ : 0 ≤ δ → -Real.pi ≤ s := by
      intro hd
      have : (0 : ℝ) ≤ (n : ℝ) * δ := mul_nonneg (Nat.cast_nonneg n) hd
      have hss : s = m.theta i + (n : ℝ) * δ := by rw [hs, hδ]; ring
      have := (hθ i hi).1
      rw [hss]; linarith
    have hside₁ : δ ≤ 0 → s ≤ Real.pi := by
      intro hd
      have : (n : ℝ) * δ ≤ 0 := mul_nonpos_of_nonneg_of_nonpos (Nat.cast_nonneg n) hd
      have hss : s = m.theta i + (n : ℝ) * δ := by rw [hs, hδ]; ring
      have := (hθ i hi).2
      rw [hss]; linarith
    rw [wrapPhase_wrapPhase_add s δ hside₀ hside₁, hswap]
    push_cast
    ring_nf

/-- Witness for C4: a single oscillator with `θ(0) = 0`, `ω = 1`, `dt = 1`
stepped three times. -/
noncomputable def uncoupledDemo : KuramotoModel :=
  { N := 1
    K := 0
    dt := 1
    noiseLevel := 0
    phaseLag := 0
    theta := fun _ => 0
    omega := fun _ => 1
    adjacency := none
    time := 0
    history := ⟨[], [], []⟩
    maxHistoryLength := 10000 }

theorem uncoupled_closed_form_witness :
    (0 : ℝ) ∈ Set.Icc (-Real.pi) Real.pi ∧
    (KuramotoModel.stepIter (fun _ _ _ => 0) 3 uncoupledDemo).theta 0 =
      wrapPhase (uncoupledDemo.theta 0 + uncoupledDemo.omega 0 * (3 : ℝ) *
        uncoupledDemo.dt) := by
  have hmem : (0 : ℝ) ∈ Set.Icc (-Real.pi) Real.pi :=
    ⟨by linarith [Real.pi_pos], by linarith [Real.pi_pos]⟩
  refine ⟨hmem, ?_⟩
  have := uncoupled_closed_form uncoupledDemo (fun _ _ _ => 0) rfl rfl
    (fun i _ => hmem) 3 0 (by show 0 < 1; omega)
  simpa using this

/-! ### Order parameter -/

section OrderParameter

open Complex in
/-- C5 (amended): the order parameter always lies in `[0, 1]`, and it
equals `1` only when all unit phasors coincide, i.e. when all phases agree
in both cosine and sine (equality modulo `2π`) — not necessarily when the
phase values themselves are identical. -/
theorem order_parameter_bounds (m : KuramotoModel) (hN : 1 ≤ m.N) :
    0 ≤ KuramotoModel.calculateOrderParameter m ∧
    KuramotoModel.calculateOrderParameter m ≤ 1 ∧
    (KuramotoModel.calculateOrderParameter m = 1 →
      ∀ i ∈ Finset.range m.N, ∀ j ∈ Finset.range m.N,
        Real.cos (m.theta i) = Real.cos (m.theta j) ∧
        Real.sin (m.theta i) = Real.sin (m.theta j)) := by
  set N := m.N with hNdef
  have hNpos : (0 : ℝ) < (N : ℝ) := by exact_mod_cast hN
  set S : ℂ := ∑ i ∈ Finset.range N, Complex.exp ((m.theta i : ℂ) * Complex.I) with hS
  have hre : S.re = ∑ i ∈ Finset.range N, Real.cos (m.theta i) := by
    rw [hS, Complex.re_sum]
    exact Finset.sum_congr rfl fun i _ => Complex.exp_ofReal_mul_I_re (m.theta i)
  have him : S.im = ∑ i ∈ Finset.range N, Real.sin (m.theta i) := by
    rw [hS, Complex.im_sum]
    exact Finset.sum_congr rfl fun i _ => Complex.exp_ofReal_mul_I_im (m.theta i)
  have habs_le : Complex.abs S ≤ (N : ℝ) := by
    calc Complex.abs S ≤ ∑ i ∈ Finset.range N, Complex.abs (Complex.exp ((m.theta i : ℂ) * Complex.I)) :=
          Complex.abs.sum_le _ _
      _ = ∑ _i ∈ Finset.range N, (1 : ℝ) :=
          Finset.sum_congr rfl fun i _ => Complex.abs_exp_ofReal_mul_I (m.theta i)
      _ = (N : ℝ) := by simp
  have hr : KuramotoModel.calculateOrderParameter m =
      Real.sqrt ((S.re / N) * (S.re / N) + (S.im / N) * (S.im / N)) := by
    rw [KuramotoModel.calculateOrderParameter]
    rw [hre, him]
  have hsq : S.re * S.re + S.im * S.im = (Complex.abs S) ^ 2 := by
    rw [Complex.sq_abs, Complex.normSq_apply]
  have hNN : (0 : ℝ) < (N : ℝ) * N := mul_pos hNpos hNpos
  have hX : (S.re / N) * (S.re / N) + (S.im / N) * (S.im / N) =
      (Complex.abs S) ^ 2 / ((N : ℝ) * N) := by
    rw [div_mul_div_comm, div_mul_div_comm, div_add_div_same, hsq]
  have hXle : (S.re / N) * (S.re / N) + (S.im / N) * (S.im / N) ≤ 1 := by
    rw [hX, div_le_one hNN]
    have h2 : (Complex.abs S) ^ 2 ≤ (N : ℝ) ^ 2 :=
      pow_le_pow_left₀ (Complex.abs.nonneg S) habs_le 2
    nlinarith [h2]
  refine ⟨Real.sqrt_nonneg _, ?_, ?_⟩
  · rw [hr]
    calc Real.sqrt ((S.re / N) * (S.re / N) + (S.im / N) * (S.im / N))
        ≤ Real.sqrt 1 := Real.sqrt_le_sqrt hXle
      _ = 1 := Real.sqrt_one
  · intro hone i hi j hj
    rw [hr] at hone
    have hXnonneg : 0 ≤ (S.re / N) * (S.re / N) + (S.im / N) * (S.im / N) :=
      add_nonneg (mul_self_nonneg _) (mul_self_nonneg _)
    have hXeq : (S.re / N) * (S.re / N) + (S.im / N) * (S.im / N) = 1 := by
      have := congrArg (fun x => x ^ 2) hone
      simpa [Real.sq_sqrt hXnonneg] using this
    have habs_eq : Complex.abs S = (N : ℝ) := by
      have h1 : (Complex.abs S) ^ 2 = (N : ℝ) * N := by
        rw [hX] at hXeq
        exact (div_eq_one_iff_eq hNN.ne').mp hXeq
      have h1' : (Complex.abs S) ^ 2 = (N : ℝ) ^ 2 := by rw [h1]; ring
      have h2 : Real.sqrt ((Complex.abs S) ^ 2) = Real.sqrt ((N : ℝ) ^ 2) := by rw [h1']
      rwa [Real.sqrt_sq (Complex.abs.nonneg S), Real.sqrt_sq hNpos.le] at h2
    -- equality in the triangle inequality forces all phasors equal
    set g : ℕ → ℝ := fun i => ((starRingEnd ℂ) S * Complex.exp ((m.theta i : ℂ) * Complex.I)).re with hg
    have hgsum : ∑ i ∈ Finset.range N, g i = (N : ℝ) ^ 2 := by
      have h1 : ∑ i ∈ Finset.range N, g i = ((starRingEnd ℂ) S * S).re := by
        rw [hg]
        rw [show (starRingEnd ℂ) S * S = ∑ i ∈ Finset.range N,
          (starRingEnd ℂ) S * Complex.exp ((m.theta i : ℂ) * Complex.I) by
            rw [hS, Finset.mul_sum]]
        rw [Complex.re_sum]
      rw [h1]
      have h2 : (starRingEnd ℂ) S * S = ((Complex.normSq S : ℝ) : ℂ) := by
        rw [mul_comm, Complex.mul_conj]
      have h3 : Complex.normSq S = (Complex.abs S) ^ 2 := (Complex.sq_abs S).symm
      rw [h2, Complex.ofReal_re, h3, habs_eq]
  -- each summand is at most N
    have hgle : ∀ i ∈ Finset.range N, g i ≤ (N : ℝ) := by
      intro i _
      calc g i ≤ Complex.abs ((starRingEnd ℂ) S * Complex.exp ((m.theta i : ℂ) * Complex.I)) :=
            Complex.re_le_abs _
        _ = Complex.abs S * 1 := by
            rw [map_mul, Complex.abs_conj, Complex.abs_exp_ofReal_mul_I]
        _ = (N : ℝ) := by rw [habs_eq, mul_one]
    have hconst : ∑ i ∈ Finset.range N, g i = ∑ _i ∈ Finset.range N, (N : ℝ) := by
      rw [hgsum]
      simp [sq]
    have hall : ∀ i ∈ Finset.range N, g i = (N : ℝ) :=
      (Finset.sum_eq_sum_iff_of_le hgle).mp hconst
    have hphasor : ∀ i ∈ Finset.range N,
        (starRingEnd ℂ) S * Complex.exp ((m.theta i : ℂ) * Complex.I) = ((N : ℝ) : ℂ) := by
      intro i hi'
      set w := (starRingEnd ℂ) S * Complex.exp ((m.theta i : ℂ) * Complex.I) with hw
      have hwre : w.re = (N : ℝ) := hall i hi'
      have hwabs : Complex.abs w = (N : ℝ) := by
        rw [hw, map_mul, Complex.abs_conj, Complex.abs_exp_ofReal_mul_I, habs_eq, mul_one]
      have hwim : w.im = 0 := by
        have h1 : (Complex.abs w) ^ 2 = w.re ^ 2 + w.im ^ 2 := by
          rw [Complex.sq_abs, Complex.normSq_apply]; ring
        rw [hwabs, hwre] at h1
        nlinarith [h1]
      exact Complex.ext (by rw [hwre]; simp) (by rw [hwim]; simp)
    have hSne : (starRingEnd ℂ) S ≠ 0 := by
      intro h0
      have : Complex.abs ((starRingEnd ℂ) S) = 0 := by rw [h0]; simp
      rw [Complex.abs_conj, habs_eq] at this
      exact absurd this (by positivity)
    have hexp_eq : Complex.exp ((m.theta i : ℂ) * Complex.I) =
        Complex.exp ((m.theta j : ℂ) * Complex.I) :=
      mul_left_cancel₀ hSne ((hphasor i hi).trans (hphasor j hj).symm)
    constructor
    · have := congrArg Complex.re hexp_eq
      rwa [Complex.exp_ofReal_mul_I_re, Complex.exp_ofReal_mul_I_re] at this
    · have := congrArg Complex.im hexp_eq
      rwa [Complex.exp_ofReal_mul_I_im, Complex.exp_ofReal_mul_I_im] at this

end OrderParameter

/-- Two oscillators at the two wrapped representations `π` and `−π` of the
same direction: the phasors coincide but the stored phases differ. -/
noncomputable def antipodalPair : KuramotoModel :=
  { N := 2
    K := 2
    dt := 0.05
    noiseLevel := 0
    phaseLag := 0
    theta := fun i => if i = 0 then Real.pi else -Real.pi
    omega := fun _ => 0
    adjacency := none
    time := 0
    history := ⟨[], [], []⟩
    maxHistoryLength := 10000 }

/-- C5 (counterexample): `calculateOrderParameter` returns exactly `1` on
`antipodalPair`, although its two phases are not numerically identical
(`π ≠ −π`); `r = 1` therefore does not imply identical phase values. -/
theorem order_parameter_one_distinct_phases :
    KuramotoModel.calculateOrderParameter antipodalPair = 1 ∧
    antipodalPair.theta 0 ≠ antipodalPair.theta 1 := by
  constructor
  · rw [KuramotoModel.calculateOrderParameter]
    have hc : ∑ i ∈ Finset.range antipodalPair.N, Real.cos (antipodalPair.theta i)
        = -2 := by
      show ∑ i ∈ Finset.range 2, Real.cos (if i = 0 then Real.pi else -Real.pi) = -2
      rw [Finset.sum_range_succ, Finset.sum_range_succ, Finset.sum_range_zero]
      norm_num [Real.cos_pi]
    have hs : ∑ i ∈ Finset.range antipodalPair.N, Real.sin (antipodalPair.theta i)
        = 0 := by
      show ∑ i ∈ Finset.range 2, Real.sin (if i = 0 then Real.pi else -Real.pi) = 0
      rw [Finset.sum_range_succ, Finset.sum_range_succ, Finset.sum_range_zero]
      norm_num [Real.sin_pi]
    rw [hc, hs]
    show Real.sqrt ((-2) / (2 : ℕ) * ((-2) / (2 : ℕ)) + 0 / (2 : ℕ) * (0 / (2 : ℕ))) = 1
    norm_num
  · show (if (0 : ℕ) = 0 then Real.pi else -Real.pi) ≠
      (if (1 : ℕ) = 0 then Real.pi else -Real.pi)
    norm_num
    intro h
    have : Real.pi = 0 := by linarith
    exact absurd this Real.pi_ne_zero

/-- Witness for C5 at a single-oscillator model (the bounds and the
phasor-equality conclusion hold there with `r = 1`). -/
theorem order_parameter_bounds_witness :
    0 ≤ KuramotoModel.calculateOrderParameter uncoupledDemo ∧
    KuramotoModel.calculateOrderParameter uncoupledDemo ≤ 1 :=
  ⟨(order_parameter_bounds uncoupledDemo (by show 1 ≤ 1; omega)).1,
   (order_parameter_bounds uncoupledDemo (by show 1 ≤ 1; omega)).2.1⟩

namespace AttentionFieldModel

/-- The source's `recordHistory` keeps the three lists in lockstep and never lets them
exceed 500 entries: it pushes one entry to each and, when the pushed length
exceeds 500, drops the oldest entry of all three. -/
lemma recordHistory_lengths (m : AttentionFieldModel)
    (h1 : m.history.time.length = m.history.attentionMap.length)
    (h2 : m.history.time.length = m.history.trackedObjects.length)
    (hle : m.history.time.length ≤ 500) :
    (recordHistory m).history.time.length =
      (recordHistory m).history.attentionMap.length ∧
    (recordHistory m).history.time.length =
      (recordHistory m).history.trackedObjects.length ∧
    (recordHistory m).history.time.length ≤ 500 := by
  simp only [recordHistory]
  split
  · rename_i hc
    simp only [List.length_append, List.length_cons, List.length_nil] at hc
    constructor
    · simp only [List.length_drop, List.length_append, List.length_cons, List.length_nil,
        List.length_map, List.length_range]
      omega
    constructor
    · simp only [List.length_drop, List.length_append, List.length_cons, List.length_nil,
        List.length_map, List.length_range]
      omega
    · simp only [List.length_drop, List.length_append, List.length_cons, List.length_nil,
        List.length_map, List.length_range]
      omega
  · rename_i hc
    simp only [List.length_append, List.length_cons, List.length_nil] at hc
    constructor
    · simp only [List.length_append, List.length_cons, List.length_nil,
        List.length_map, List.length_range]
      omega
    constructor
    · simp only [List.length_append, List.length_cons, List.length_nil,
        List.length_map, List.length_range]
      omega
    · simp only [List.length_append, List.length_cons, List.length_nil,
        List.length_map, List.length_range]
      omega

lemma attention_step_history_lengths (η : ℕ → ℕ → ℝ) (m : AttentionFieldModel)
    (h1 : m.history.time.length = m.history.attentionMap.length)
    (h2 : m.history.time.length = m.history.trackedObjects.length)
    (hle : m.history.time.length ≤ 500) :
    (step η m).history.time.length = (step η m).history.attentionMap.length ∧
    (step η m).history.time.length = (step η m).history.trackedObjects.length ∧
    (step η m).history.time.length ≤ 500 :=
  recordHistory_lengths _ h1 h2 hle

end AttentionFieldModel

/-- C6: the attention-field history is a 500-entry ring buffer: after any
number of `step()` calls (from any state whose three history lists are in
lockstep within the cap, in particular from a freshly constructed model),
the three lists still have equal lengths and none exceeds 500; whenever a
push would exceed 500 the oldest entry of all three is dropped together. -/
theorem attention_history_bounded (m : AttentionFieldModel)
    (ηs : ℕ → ℕ → ℕ → ℝ) (n : ℕ)
    (h1 : m.history.time.length = m.history.attentionMap.length)
    (h2 : m.history.time.length = m.history.trackedObjects.length)
    (hle : m.history.time.length ≤ 500) :
    (AttentionFieldModel.stepIter ηs n m).history.time.length =
      (AttentionFieldModel.stepIter ηs n m).history.attentionMap.length ∧
    (AttentionFieldModel.stepIter ηs n m).history.time.length =
      (AttentionFieldModel.stepIter ηs n m).history.trackedObjects.length ∧
    (AttentionFieldModel.stepIter ηs n m).history.time.length ≤ 500 := by
  induction n with
  | zero => exact ⟨h1, h2, hle⟩
  | succ n ih =>
    exact AttentionFieldModel.attention_step_history_lengths (ηs n) _ ih.1 ih.2.1 ih.2.2

/-- Witness for C6 at a freshly constructed model. -/
theorem attention_history_bounded_witness :
    (AttentionFieldModel.stepIter (fun _ _ _ => 0) 2 attnDemo).history.time.length =
      (AttentionFieldModel.stepIter (fun _ _ _ => 0) 2 attnDemo).history.attentionMap.length ∧
    (AttentionFieldModel.stepIter (fun _ _ _ => 0) 2 attnDemo).history.time.length =
      (AttentionFieldModel.stepIter (fun _ _ _ => 0) 2 attnDemo).history.trackedObjects.length ∧
    (AttentionFieldModel.stepIter (fun _ _ _ => 0) 2 attnDemo).history.time.length ≤ 500 :=
  attention_history_bounded attnDemo (fun _ _ _ => 0) 2 rfl rfl (by show 0 ≤ 500; omega)

/-- C7: `calculateRunMetrics` degrades gracefully.  A missing history or a
history with an empty order-parameter series yields exactly the all-zero
summary `{0, 0, 0, 0, 0, null, false, false}` (the function is total, so it
never throws), and for any series of fewer than 100 points both
`converged` and `oscillating` are `false`. -/
theorem run_metrics_graceful_degradation :
    calculateRunMetrics none =
      { finalR := 0, meanR := 0, stdR := 0, minR := 0, maxR := 0
        settlingTime := none, converged := false, oscillating := false } ∧
    (∀ (t : List ℝ) (ph : List (ℕ → ℝ)),
      calculateRunMetrics (some ⟨t, [], ph⟩) =
        { finalR := 0, meanR := 0, stdR := 0, minR := 0, maxR := 0
          settlingTime := none, converged := false, oscillating := false }) ∧
    (∀ h : KHistory, h.orderParameter.length < 100 →
      (calculateRunMetrics (some h)).converged = false ∧
      (calculateRunMetrics (some h)).oscillating = false) := by
  refine ⟨rfl, fun t ph => rfl, fun h hlen => ?_⟩
  by_cases hz : h.orderParameter.length = 0
  · constructor <;> simp [calculateRunMetrics, hz]
  · have hconv : ∀ fr sr : ℝ, checkConvergence h.orderParameter fr sr = false := by
      intro fr sr
      rw [checkConvergence, if_pos hlen]
    have hosc : detectOscillation h.orderParameter = false := by
      rw [detectOscillation, if_pos hlen]
    constructor <;> simp [calculateRunMetrics, hz, hconv, hosc]

/-- Witness for C7: a three-point series — well under 100 points — has
`converged = oscillating = false`, alongside the empty-history result. -/
theorem run_metrics_graceful_degradation_witness :
    calculateRunMetrics (some ⟨[0], [], []⟩) =
      { finalR := 0, meanR := 0, stdR := 0, minR := 0, maxR := 0
        settlingTime := none, converged := false, oscillating := false } ∧
    (calculateRunMetrics (some ⟨[0, 1, 2], [0.1, 0.2, 0.3], []⟩)).converged = false ∧
    (calculateRunMetrics (some ⟨[0, 1, 2], [0.1, 0.2, 0.3], []⟩)).oscillating = false :=
  ⟨run_metrics_graceful_degradation.2.1 [0] [],
   (run_metrics_graceful_degradation.2.2 ⟨[0, 1, 2], [0.1, 0.2, 0.3], []⟩
     (by show 3 < 100; omega)).1,
   (run_metrics_graceful_degradation.2.2 ⟨[0, 1, 2], [0.1, 0.2, 0.3], []⟩
     (by show 3 < 100; omega)).2⟩

/-- C10: `addStimulusObject` substitutes defaults for falsy fields, so an
explicit `0` for `x`, `y` or `intensity` is replaced by the default
(`gridSize/2`, `gridSize/2`, `1.0`) just as if the field were absent; in
particular a caller cannot place an object at coordinate `0` or give it
zero intensity. -/
theorem add_stimulus_object_zero_gets_default (m : AttentionFieldModel)
    (freshId : String) (o : AttentionFieldModel.ObjInput)
    (hg : 1 ≤ m.gridSize) :
    ∃ ob : StimObj,
      (AttentionFieldModel.addStimulusObject freshId o m).stimulusObjects =
        m.stimulusObjects ++ [ob] ∧
      (o.x = some 0 → ob.x = (m.gridSize : ℝ) / 2 ∧ ob.x ≠ 0) ∧
      (o.y = some 0 → ob.y = (m.gridSize : ℝ) / 2 ∧ ob.y ≠ 0) ∧
      (o.intensity = some 0 → ob.intensity = 1.0 ∧ ob.intensity ≠ 0) := by
  have hgpos : (0 : ℝ) < (m.gridSize : ℝ) / 2 := by
    have : (1 : ℝ) ≤ (m.gridSize : ℝ) := by exact_mod_cast hg
    linarith
  refine ⟨_, rfl, ?_, ?_, ?_⟩
  · intro hx
    have : AttentionFieldModel.jsOrField o.x ((m.gridSize : ℝ) / 2) =
        (m.gridSize : ℝ) / 2 := by
      rw [hx, AttentionFieldModel.jsOrField, if_pos rfl]
    exact ⟨this, by rw [this]; exact ne_of_gt hgpos⟩
  · intro hy
    have : AttentionFieldModel.jsOrField o.y ((m.gridSize : ℝ) / 2) =
        (m.gridSize : ℝ) / 2 := by
      rw [hy, AttentionFieldModel.jsOrField, if_pos rfl]
    exact ⟨this, by rw [this]; exact ne_of_gt hgpos⟩
  · intro hI
    have : AttentionFieldModel.jsOrField o.intensity 1.0 = 1.0 := by
      rw [hI, AttentionFieldModel.jsOrField, if_pos rfl]
    exact ⟨this, by rw [this]; norm_num⟩

/-- Witness for C10: on the default-constructed field (`gridSize = 32`), an
object requested at `x = 0`, `y = 0` with `intensity = 0` is stored at the
grid centre with intensity 1. -/
theorem add_stimulus_object_zero_gets_default_witness :
    ∃ ob : StimObj,
      (AttentionFieldModel.addStimulusObject "obj1"
        { x := some 0, y := some 0, intensity := some 0 } attnDemo).stimulusObjects =
        attnDemo.stimulusObjects ++ [ob] ∧
      ob.x = (attnDemo.gridSize : ℝ) / 2 ∧ ob.x ≠ 0 ∧
      ob.intensity = 1.0 ∧ ob.intensity ≠ 0 := by
  obtain ⟨ob, hmem, hx, _hy, hI⟩ := add_stimulus_object_zero_gets_default attnDemo "obj1"
    { x := some 0, y := some 0, intensity := some 0 } (by show 1 ≤ 32; omega)
  exact ⟨ob, hmem, (hx rfl).1, (hx rfl).2, (hI rfl).1, (hI rfl).2⟩

/-! ### Structural invariants of the generated adjacency matrices -/

/-- A well-formed generated adjacency matrix: symmetric, 0/1-valued, with
zero diagonal. -/
def GoodAdj (A : Adj) : Prop :=
  (∀ a b, A a b = A b a) ∧ (∀ a b, A a b = 0 ∨ A a b = 1) ∧ (∀ a, A a a = 0)

lemma goodAdj_zero : GoodAdj zeroAdj :=
  ⟨fun _ _ => rfl, fun _ _ => Or.inl rfl, fun _ => rfl⟩

lemma goodAdj_setSym {A : Adj} {i j v : ℕ} (h : GoodAdj A)
    (hv : v = 0 ∨ v = 1) (hd : i ≠ j ∨ v = 0) : GoodAdj (setSym A i j v) := by
  obtain ⟨hsym, h01, hdiag⟩ := h
  refine ⟨?_, ?_, ?_⟩
  · intro a b
    simp only [setSym]
    split <;> split <;> first | rfl | (exact hsym a b) | tauto
  · intro a b
    simp only [setSym]
    split
    · exact hv
    · exact h01 a b
  · intro a
    simp only [setSym]
    split
    · rename_i hcond
      rcases hd with hne | hv0
      · exfalso
        rcases hcond with ⟨ha, hb⟩ | ⟨ha, hb⟩ <;> exact hne (hb ▸ ha ▸ rfl)
      · exact hv0
    · exact hdiag a

/-- Fold preservation of a state predicate. -/
lemma foldl_preserve {σ α : Type*} (P : σ → Prop) (f : σ → α → σ) :
    ∀ (l : List α) (s : σ), P s → (∀ s a, a ∈ l → P s → P (f s a)) →
      P (l.foldl f s) := by
  intro l
  induction l with
  | nil => intro s hs _; exact hs
  | cons a l ih =>
    intro s hs hf
    exact ih (f s a) (hf s a (List.mem_cons_self a l) hs)
      (fun s' a' ha' => hf s' a' (List.mem_cons_of_mem a ha'))

/-- The source's `(i + j) % N ≠ i` for offsets `1 ≤ j < N` and `i < N`. -/
lemma add_mod_ne (i j N : ℕ) (hiN : i < N) (hj1 : 1 ≤ j) (hjN : j < N) :
    (i + j) % N ≠ i := by
  intro h
  have hq := Nat.div_add_mod (i + j) N
  rw [h] at hq
  have hNq : N * ((i + j) / N) = j := by omega
  rcases Nat.eq_zero_or_pos ((i + j) / N) with hq0 | hqpos
  · rw [hq0, Nat.mul_zero] at hNq; omega
  · have hge : N ≤ N * ((i + j) / N) := Nat.le_mul_of_pos_right N hqpos
    omega

/-- The all-to-all generator writes exactly the off-diagonal cells of the
`N × N` block. -/
lemma allToAll_inner (i : ℕ) : ∀ (n : ℕ) (A : Adj),
    ((List.range n).foldl (fun A j => if i ≠ j then pointSet A i j 1 else A) A)
      = fun a b => if a = i ∧ b < n ∧ b ≠ i then 1 else A a b := by
  intro n
  induction n with
  | zero => intro A; funext a b; simp
  | succ n ih =>
    intro A
    rw [List.range_succ, List.foldl_append, ih]
    simp only [List.foldl_cons, List.foldl_nil]
    funext a b
    by_cases hin : i ≠ n
    · rw [if_pos hin]
      simp only [pointSet]
      split_ifs <;> first | rfl | omega
    · rw [if_neg hin]
      push_neg at hin
      split_ifs <;> first | rfl | omega

lemma createAllToAll_eq (N : ℕ) :
    createAllToAll N = fun a b => if a < N ∧ b < N ∧ b ≠ a then 1 else 0 := by
  rw [createAllToAll]
  have h : ∀ m : ℕ,
      (List.range m).foldl
        (fun A i => (List.range N).foldl
          (fun A j => if i ≠ j then pointSet A i j 1 else A) A) zeroAdj
      = fun a b => if a < m ∧ b < N ∧ b ≠ a then 1 else 0 := by
    intro m
    induction m with
    | zero => funext a b; simp [zeroAdj]
    | succ m ih =>
      rw [List.range_succ, List.foldl_append, ih]
      simp only [List.foldl_cons, List.foldl_nil]
      rw [allToAll_inner]
      funext a b
      split_ifs <;> first | rfl | omega
  exact h N

lemma goodAdj_createAllToAll (N : ℕ) : GoodAdj (createAllToAll N) := by
  rw [createAllToAll_eq]
  refine ⟨?_, ?_, ?_⟩
  · intro a b; dsimp only; split_ifs <;> first | rfl | omega
  · intro a b; dsimp only; split_ifs <;> simp
  · intro a; dsimp only; split_ifs <;> first | rfl | omega

lemma goodAdj_createRandom (N : ℕ) (p : ℚ) (u : ℕ → ℚ) :
    GoodAdj (createRandom N p u) := by
  rw [createRandom]
  have h := foldl_preserve (fun st : Adj × ℕ => GoodAdj st.1)
    (fun st i =>
      ((List.range N).filter (fun j => decide (i < j))).foldl
        (fun st j =>
          if u st.2 < p then (setSym st.1 i j 1, st.2 + 1) else (st.1, st.2 + 1))
        st)
    (List.range N) (zeroAdj, 0) goodAdj_zero ?_
  · exact h
  · intro st i _ hst
    refine foldl_preserve (fun st : Adj × ℕ => GoodAdj st.1) _ _ st hst ?_
    intro st' j hj hst'
    have hij : i < j := by
      have := List.mem_filter.mp hj
      simpa using this.2
    split
    · exact goodAdj_setSym hst' (Or.inr rfl) (Or.inl (Nat.ne_of_lt hij))
    · exact hst'

lemma goodAdj_createRing (N k : ℕ) (hk : k < N) : GoodAdj (createRing N k) := by
  rw [createRing]
  refine foldl_preserve GoodAdj _ (List.range N) zeroAdj goodAdj_zero ?_
  intro A i hi hA
  refine foldl_preserve GoodAdj _ (List.range k) A hA ?_
  intro A' dj hdj hA'
  have hiN : i < N := List.mem_range.mp hi
  have hdjk : dj < k := List.mem_range.mp hdj
  exact goodAdj_setSym hA' (Or.inr rfl)
    (Or.inl (Ne.symm (add_mod_ne i (dj + 1) N hiN (by omega) (by omega))))

lemma goodAdj_ringLattice (N k : ℕ) (hk : k / 2 < N) : GoodAdj (ringLattice N k) := by
  rw [ringLattice]
  refine foldl_preserve GoodAdj _ (List.range N) zeroAdj goodAdj_zero ?_
  intro A i hi hA
  refine foldl_preserve GoodAdj _ (List.range (k / 2)) A hA ?_
  intro A' dj hdj hA'
  have hiN : i < N := List.mem_range.mp hi
  have hdjk : dj < k / 2 := List.mem_range.mp hdj
  have hj1 : 1 ≤ dj + 1 := by omega
  have hjN : dj + 1 < N := by omega
  have hn1 : (i + (dj + 1)) % N ≠ i := add_mod_ne i (dj + 1) N hiN hj1 hjN
  have hsub : i + N - (dj + 1) = i + (N - (dj + 1)) := by omega
  have hn2 : (i + N - (dj + 1)) % N ≠ i := by
    rw [hsub]
    exact add_mod_ne i (N - (dj + 1)) N hiN (by omega) (by omega)
  have hgood1 : GoodAdj (setSym A' i ((i + (dj + 1)) % N) 1) :=
    goodAdj_setSym hA' (Or.inr rfl) (Or.inl (Ne.symm hn1))
  dsimp only
  split
  · exact goodAdj_setSym hgood1 (Or.inr rfl) (Or.inl (Ne.symm hn2))
  · exact hgood1

/-- When the retry loop reports success, its final candidate is distinct
from `i` and not currently connected to `i`. -/
lemma retryLoop_true (N : ℕ) (A : Adj) (i : ℕ) (u : ℕ → ℚ) :
    ∀ (fuel nt t : ℕ), (retryLoop N A i u fuel nt t).2.2 = true →
      (retryLoop N A i u fuel nt t).1 ≠ i ∧
      A i (retryLoop N A i u fuel nt t).1 ≠ 1 := by
  intro fuel
  induction fuel with
  | zero => intro nt t h; exact absurd h (by simp [retryLoop])
  | succ fuel ih =>
    intro nt t h
    by_cases hc : nt = i ∨ A i nt = 1
    · rw [retryLoop, if_pos hc] at h ⊢
      exact ih _ _ h
    · rw [retryLoop, if_neg hc]
      push_neg at hc
      exact hc

lemma goodAdj_createSmallWorld (N k : ℕ) (β : ℚ) (u : ℕ → ℚ) (hk : k / 2 < N) :
    GoodAdj (createSmallWorld N k β u) := by
  rw [createSmallWorld]
  refine foldl_preserve (fun st : Adj × ℕ => GoodAdj st.1) _ _ _
    (goodAdj_ringLattice N k hk) ?_
  intro st e _ hst
  rw [rewireEdge]
  dsimp only
  split
  · have hA1 : GoodAdj (setSym st.1 e.1 e.2 0) :=
      goodAdj_setSym hst (Or.inl rfl) (Or.inr rfl)
    by_cases hb : (retryLoop N (setSym st.1 e.1 e.2 0) e.1 u 100
        (jsFloorNat (u (st.2 + 1) * (N : ℚ))) (st.2 + 2)).2.2 = true
    · rw [if_pos hb]
      obtain ⟨hne, _⟩ := retryLoop_true N (setSym st.1 e.1 e.2 0) e.1 u 100
        (jsFloorNat (u (st.2 + 1) * (N : ℚ))) (st.2 + 2) hb
      exact goodAdj_setSym hA1 (Or.inr rfl) (Or.inl (Ne.symm hne))
    · rw [if_neg hb]
      exact hA1
  · exact hst

lemma roulette_mem (A : Adj) (i : ℕ) (tg : Finset ℕ) (rand : ℚ) :
    ∀ (l : List ℕ) (s : ℚ) (j : ℕ), roulette A i tg rand l s = some j → j ∈ l := by
  intro l
  induction l with
  | nil => intro s j h; exact absurd h (by simp [roulette])
  | cons a l ih =>
    intro s j h
    rw [roulette] at h
    split at h
    · exact (Option.some_inj.mp h) ▸ List.mem_cons_self a l
    · exact List.mem_cons_of_mem a (ih _ j h)

lemma jsFloorNat_lt (q : ℚ) (n : ℕ) (h0 : 0 ≤ q) (h1 : q < 1) (hn : 1 ≤ n) :
    jsFloorNat (q * (n : ℚ)) < n := by
  have hq : q * (n : ℚ) < (n : ℚ) := by
    have hnpos : (0 : ℚ) < (n : ℚ) := by exact_mod_cast hn
    nlinarith
  have hfloor : ⌊q * (n : ℚ)⌋ < (n : ℤ) := by
    rw [Int.floor_lt]
    exact_mod_cast hq
  rw [jsFloorNat]
  omega

lemma pickTargets_subset (A : Adj) (i need : ℕ) (u : ℕ → ℚ)
    (hu : ∀ t, 0 ≤ u t ∧ u t < 1) (hi : 1 ≤ i) :
    ∀ (fuel : ℕ) (tg : Finset ℕ) (t : ℕ) (tg' : Finset ℕ) (t' : ℕ),
      pickTargets A i need u fuel tg t = some (tg', t') →
      tg ⊆ Finset.range i → tg' ⊆ Finset.range i := by
  intro fuel
  induction fuel with
  | zero =>
    intro tg t tg' t' h hsub
    rw [pickTargets] at h
    split at h
    · obtain ⟨h1, _⟩ := Prod.mk.injEq .. ▸ Option.some_inj.mp h
      exact h1 ▸ hsub
    · exact absurd h (by simp)
  | succ fuel ih =>
    intro tg t tg' t' h hsub
    rw [pickTargets] at h
    split at h
    · obtain ⟨h1, _⟩ := Prod.mk.injEq .. ▸ Option.some_inj.mp h
      exact h1 ▸ hsub
    · have hsub1 : (match roulette A i tg (u t * (totalDegreeUpTo A i : ℚ))
          (List.range i) 0 with
          | some j => insert j tg
          | none => tg) ⊆ Finset.range i := by
        split
        · rename_i j hj
          have hji : j < i := List.mem_range.mp
            (roulette_mem A i tg _ (List.range i) 0 j hj)
          exact Finset.insert_subset (Finset.mem_range.mpr hji) hsub
        · exact hsub
      dsimp only at h
      split at h
      · refine ih _ _ _ _ h (Finset.insert_subset ?_ hsub1)
        exact Finset.mem_range.mpr
          (jsFloorNat_lt (u (t + 1)) i (hu (t + 1)).1 (hu (t + 1)).2 hi)
      · exact ih _ _ _ _ h hsub1

lemma goodAdj_writeTargets (A : Adj) (i : ℕ) (tg : Finset ℕ)
    (hA : GoodAdj A) (htg : ∀ x ∈ tg, x ≠ i) : GoodAdj (writeTargets A i tg) := by
  rw [writeTargets]
  refine foldl_preserve GoodAdj _ _ _ hA ?_
  intro A' x hx hA'
  have hxi : x ≠ i := htg x ((Finset.mem_sort _).mp hx)
  exact goodAdj_setSym hA' (Or.inr rfl) (Or.inl (Ne.symm hxi))

lemma goodAdj_seedComplete (m0 : ℕ) : GoodAdj (seedComplete m0) := by
  rw [seedComplete]
  refine foldl_preserve GoodAdj _ _ _ goodAdj_zero ?_
  intro A i _ hA
  refine foldl_preserve GoodAdj _ _ A hA ?_
  intro A' j hj hA'
  have hij : i < j := by
    have := List.mem_filter.mp hj
    simpa using this.2
  exact goodAdj_setSym hA' (Or.inr rfl) (Or.inl (Nat.ne_of_lt hij))

lemma goodAdj_createScaleFree (N m : ℕ) (u : ℕ → ℚ) (fuel : ℕ) (A : Adj)
    (hu : ∀ t, 0 ≤ u t ∧ u t < 1)
    (h : createScaleFree N m u fuel = some A) : GoodAdj A := by
  rw [createScaleFree] at h
  set m0 := min (m + 1) N with hm0
  have hfold := foldl_preserve
    (fun st : Option (Adj × ℕ) => ∀ B t, st = some (B, t) → GoodAdj B)
    (fun st di =>
      match st with
      | none => none
      | some (A, t) =>
        let i := m0 + di
        match pickTargets A i (min m i) u fuel ∅ t with
        | none => none
        | some (tg, t') => some (writeTargets A i tg, t'))
    (List.range (N - m0)) (some (seedComplete m0, 0))
    (by
      intro B t hBt
      obtain ⟨h1, _⟩ := Prod.mk.injEq .. ▸ Option.some_inj.mp hBt
      exact h1 ▸ goodAdj_seedComplete m0)
    ?_
  · obtain ⟨⟨B, t⟩, hpair, hBA⟩ := Option.map_eq_some'.mp h
    exact hBA ▸ hfold B t hpair
  · intro st di hdi hst
    intro B t hBt
    match hmatch : st with
    | none => simp [hmatch] at hBt
    | some (A', t0) =>
      have hgood := hst A' t0 rfl
      dsimp only at hBt
      have hdi' : di < N - m0 := List.mem_range.mp hdi
      have hN1 : 1 ≤ N := by omega
      have hm01 : 1 ≤ m0 := by rw [hm0]; omega
      have hi1 : 1 ≤ m0 + di := by omega
      split at hBt
      · exact absurd hBt (by simp)
      · rename_i tg t' hpick
        obtain ⟨h1, _⟩ := Prod.mk.injEq .. ▸ Option.some_inj.mp hBt
        have hsub : tg ⊆ Finset.range (m0 + di) :=
          pickTargets_subset A' (m0 + di) (min m (m0 + di)) u hu hi1 fuel ∅ t0 tg t'
            hpick (Finset.empty_subset _)
        have htg : ∀ x ∈ tg, x ≠ m0 + di := by
          intro x hx
          have := Finset.mem_range.mp (hsub hx)
          omega
        exact h1 ▸ goodAdj_writeTargets A' (m0 + di) tg hgood htg

/-- C8 (amended): every topology generator returns a symmetric 0/1 matrix,
and the diagonal is zero for all-to-all, Erdős–Rényi and (on termination)
scale-free unconditionally, while for the ring it requires `k < N` and for
small-world `⌊k/2⌋ < N` — when the neighbour offset reaches a full lap of
the ring the generators write `adjacency[i][i] = 1` (self-loops).  For the
randomized generators the draws are the values of `Math.random()`, hence in
`[0, 1)`; small-world is stated for `⌊k/2⌋ < N`, where the source's
`(i − j + N) % N` index arithmetic is the embedded one. -/
theorem topology_generators_well_formed :
    (∀ N : ℕ, GoodAdj (createAllToAll N)) ∧
    (∀ (N : ℕ) (p : ℚ) (u : ℕ → ℚ), GoodAdj (createRandom N p u)) ∧
    (∀ (N k : ℕ) (β : ℚ) (u : ℕ → ℚ), k / 2 < N →
      GoodAdj (createSmallWorld N k β u)) ∧
    (∀ (N m : ℕ) (u : ℕ → ℚ) (fuel : ℕ) (A : Adj),
      (∀ t, 0 ≤ u t ∧ u t < 1) →
      createScaleFree N m u fuel = some A → GoodAdj A) ∧
    (∀ N k : ℕ, k < N → GoodAdj (createRing N k)) :=
  ⟨goodAdj_createAllToAll,
   goodAdj_createRandom,
   fun N k β u hk => goodAdj_createSmallWorld N k β u hk,
   fun N m u fuel A hu h => goodAdj_createScaleFree N m u fuel A hu h,
   fun N k hk => goodAdj_createRing N k hk⟩

/-- Witness for C8 at concrete instances of all five generators. -/
theorem topology_generators_well_formed_witness :
    GoodAdj (createAllToAll 3) ∧
    GoodAdj (createRandom 3 (1 / 2) (fun _ => 1 / 4)) ∧
    GoodAdj (createSmallWorld 4 2 (1 / 2) (fun _ => 0)) ∧
    (∃ A : Adj, createScaleFree 2 1 (fun _ => 1 / 2) 0 = some A ∧ GoodAdj A) ∧
    GoodAdj (createRing 5 2) :=
  ⟨topology_generators_well_formed.1 3,
   topology_generators_well_formed.2.1 3 (1 / 2) (fun _ => 1 / 4),
   topology_generators_well_formed.2.2.1 4 2 (1 / 2) (fun _ => 0) (by norm_num),
   ⟨seedComplete 2, rfl,
    topology_generators_well_formed.2.2.2.1 2 1 (fun _ => 1 / 2) 0 (seedComplete 2)
      (fun t => ⟨by norm_num, by norm_num⟩) rfl⟩,
   topology_generators_well_formed.2.2.2.2 5 2 (by norm_num)⟩

/-- C8 (counterexample): `createRing(2, 2)` writes a self-loop — the
neighbour offset `j = 2` wraps a full lap, so `adjacency[0][0] = 1` and the
diagonal is not zero. -/
theorem ring_generator_self_loop :
    createRing 2 2 0 0 = 1 ∧ createRing 2 2 0 0 ≠ 0 := by
  constructor
  · decide
  · decide

/-! ### Small-world edge count -/

/-- The number of edges of an adjacency matrix: cells `i < j` of the
`N × N` upper triangle holding `1` (the same count the source's
`getAllEdges` collects). -/
def edgeCount (N : ℕ) (A : Adj) : ℕ :=
  ∑ p ∈ Finset.range N ×ˢ Finset.range N, if p.1 < p.2 ∧ A p.1 p.2 = 1 then 1 else 0

/-- The two assignments of `setSym` as successive single assignments. -/
lemma setSym_eq_pointSet (A : Adj) (i j v : ℕ) :
    setSym A i j v = pointSet (pointSet A i j v) j i v := by
  funext a b
  simp only [setSym, pointSet]
  split_ifs <;> first | rfl | tauto

lemma pointSet_apply_same (A : Adj) (i j v : ℕ) : pointSet A i j v i j = v := by
  simp [pointSet]

lemma pointSet_apply_other (A : Adj) (i j v a b : ℕ) (h : ¬(a = i ∧ b = j)) :
    pointSet A i j v a b = A a b := by
  simp [pointSet, h]

/-- Change of `edgeCount` under a single cell assignment, in additive form. -/
lemma edgeCount_pointSet (N : ℕ) (A : Adj) (i j v : ℕ) (hi : i < N) (hj : j < N) :
    edgeCount N (pointSet A i j v) + (if i < j ∧ A i j = 1 then 1 else 0) =
      edgeCount N A + (if i < j ∧ v = 1 then 1 else 0) := by
  have hmem : ((i, j) : ℕ × ℕ) ∈ Finset.range N ×ˢ Finset.range N := by
    simp [Finset.mem_product, hi, hj]
  have hnew := Finset.add_sum_erase (Finset.range N ×ˢ Finset.range N)
    (fun p => if p.1 < p.2 ∧ pointSet A i j v p.1 p.2 = 1 then 1 else 0) hmem
  have hold := Finset.add_sum_erase (Finset.range N ×ˢ Finset.range N)
    (fun p => if p.1 < p.2 ∧ A p.1 p.2 = 1 then 1 else 0) hmem
  have hsame : ∑ p ∈ (Finset.range N ×ˢ Finset.range N).erase (i, j),
      (if p.1 < p.2 ∧ pointSet A i j v p.1 p.2 = 1 then 1 else 0) =
      ∑ p ∈ (Finset.range N ×ˢ Finset.range N).erase (i, j),
      (if p.1 < p.2 ∧ A p.1 p.2 = 1 then 1 else 0) := by
    refine Finset.sum_congr rfl ?_
    intro p hp
    have hne : p ≠ (i, j) := (Finset.mem_erase.mp hp).1
    have : ¬(p.1 = i ∧ p.2 = j) := by
      intro hc
      exact hne (Prod.ext hc.1 hc.2)
    rw [pointSet_apply_other A i j v p.1 p.2 this]
  rw [edgeCount, edgeCount, ← hnew, ← hold, hsame]
  dsimp only
  rw [pointSet_apply_same]
  omega

/-- Removing a present upper-triangle edge decreases the count by one. -/
lemma edgeCount_setSym_zero (N : ℕ) (A : Adj) (i j : ℕ)
    (hij : i < j) (hj : j < N) (hA : A i j = 1) :
    edgeCount N (setSym A i j 0) + 1 = edgeCount N A := by
  have hi : i < N := lt_trans hij hj
  rw [setSym_eq_pointSet]
  have h1 := edgeCount_pointSet N A i j 0 hi hj
  rw [if_pos ⟨hij, hA⟩, if_neg (by omega)] at h1
  have h2 := edgeCount_pointSet N (pointSet A i j 0) j i 0 hj hi
  rw [if_neg (by omega), if_neg (by omega)] at h2
  omega

/-- Adding an absent edge between distinct in-range endpoints increases the
count by one. -/
lemma edgeCount_setSym_one (N : ℕ) (A : Adj) (i j : ℕ)
    (hne : i ≠ j) (hi : i < N) (hj : j < N) (hij : A i j ≠ 1) (hji : A j i ≠ 1) :
    edgeCount N (setSym A i j 1) = edgeCount N A + 1 := by
  rw [setSym_eq_pointSet]
  rcases Nat.lt_or_ge i j with hlt | hge
  · have h1 := edgeCount_pointSet N A i j 1 hi hj
    rw [if_neg (by tauto), if_pos ⟨hlt, rfl⟩] at h1
    have h2 := edgeCount_pointSet N (pointSet A i j 1) j i 1 hj hi
    rw [if_neg (by omega), if_neg (by omega)] at h2
    omega
  · have hlt : j < i := by omega
    have h1 := edgeCount_pointSet N A i j 1 hi hj
    rw [if_neg (by omega), if_neg (by omega)] at h1
    have h2 := edgeCount_pointSet N (pointSet A i j 1) j i 1 hj hi
    have hBji : pointSet A i j 1 j i = A j i :=
      pointSet_apply_other A i j 1 j i (by omega)
    rw [hBji, if_neg (by tauto), if_pos ⟨hlt, rfl⟩] at h2
    omega

lemma swEdges_mem {A : Adj} {N : ℕ} {e : ℕ × ℕ} (h : e ∈ swEdges A N) :
    e.1 < e.2 ∧ e.2 < N ∧ A e.1 e.2 = 1 := by
  rw [swEdges, List.mem_flatMap] at h
  obtain ⟨i, _, hmap⟩ := h
  rw [List.mem_map] at hmap
  obtain ⟨j, hj, rfl⟩ := hmap
  rw [List.mem_filter] at hj
  obtain ⟨hjr, hcond⟩ := hj
  simp only [Bool.and_eq_true, decide_eq_true_eq] at hcond
  exact ⟨hcond.1, List.mem_range.mp hjr, hcond.2⟩

lemma swEdges_nodup (A : Adj) (N : ℕ) : (swEdges A N).Nodup := by
  rw [swEdges, List.nodup_flatMap]
  constructor
  · intro i _
    exact List.Nodup.map (fun a b hab => by injection hab)
      (List.Nodup.filter _ (List.nodup_range N))
  · have hp : (List.range N).Pairwise (· < ·) := List.pairwise_lt_range N
    refine hp.imp ?_
    intro i j hij
    intro e hei hej
    rw [List.mem_map] at hei hej
    obtain ⟨a, _, ha⟩ := hei
    obtain ⟨b, _, hb⟩ := hej
    have h1 : e.1 = i := by rw [← ha]
    have h2 : e.1 = j := by rw [← hb]
    omega

lemma setSym_symm {A : Adj} {i j v : ℕ} (h : ∀ a b, A a b = A b a) :
    ∀ a b, setSym A i j v a b = setSym A i j v b a := by
  intro a b
  simp only [setSym]
  split <;> split <;> first | rfl | (exact h a b) | tauto

lemma setSym_apply_untouched (A : Adj) (i j v a b : ℕ)
    (h : ¬((a = i ∧ b = j) ∨ (a = j ∧ b = i))) : setSym A i j v a b = A a b := by
  simp [setSym, h]

lemma setSym_one_keeps (A : Adj) (i j a b : ℕ) (h : A a b = 1) :
    setSym A i j 1 a b = 1 := by
  simp only [setSym]
  split <;> first | rfl | exact h

lemma ringLattice_symm (N k : ℕ) : ∀ a b, ringLattice N k a b = ringLattice N k b a := by
  rw [ringLattice]
  refine foldl_preserve (fun A : Adj => ∀ a b, A a b = A b a) _ _ _
    (fun _ _ => rfl) ?_
  intro A i _ hA
  refine foldl_preserve (fun A : Adj => ∀ a b, A a b = A b a) _ _ A hA ?_
  intro A' dj _ hA'
  dsimp only
  split
  · exact setSym_symm (setSym_symm hA')
  · exact setSym_symm hA'

/-- Every candidate the retry loop can return is below `N`, provided the
initial candidate is and the draws are in `[0, 1)`. -/
lemma retryLoop_lt (N : ℕ) (A : Adj) (i : ℕ) (u : ℕ → ℚ)
    (hu : ∀ t, 0 ≤ u t ∧ u t < 1) (hN : 1 ≤ N) :
    ∀ (fuel nt t : ℕ), nt < N → (retryLoop N A i u fuel nt t).1 < N := by
  intro fuel
  induction fuel with
  | zero => intro nt t h; exact h
  | succ fuel ih =>
    intro nt t h
    rw [retryLoop]
    split
    · exact ih _ _ (jsFloorNat_lt (u t) N (hu t).1 (hu t).2 hN)
    · exact h

/-- One rewiring pass never increases the edge count, and it preserves the
symmetry of the matrix and the invariant that all still-unprocessed edges
are present upper-triangle in-range cells. -/
lemma rewire_foldl_le (N : ℕ) (β : ℚ) (u : ℕ → ℚ)
    (hu : ∀ t, 0 ≤ u t ∧ u t < 1) (hN : 1 ≤ N) :
    ∀ (es : List (ℕ × ℕ)) (A : Adj) (t : ℕ),
      (∀ a b, A a b = A b a) →
      (∀ e ∈ es, e.1 < e.2 ∧ e.2 < N ∧ A e.1 e.2 = 1) →
      es.Nodup →
      edgeCount N ((es.foldl (rewireEdge N β u) (A, t)).1) ≤ edgeCount N A := by
  intro es
  induction es with
  | nil => intro A t _ _ _; exact le_refl _
  | cons e es ih =>
    intro A t hsym hes hnd
    obtain ⟨he1, he2, he3⟩ := hes e (List.mem_cons_self e es)
    have hiN : e.1 < N := lt_trans he1 he2
    rw [List.foldl_cons]
    -- analyse the processing of the head edge
    have hmain : ∀ A' t', rewireEdge N β u (A, t) e = (A', t') →
        edgeCount N A' ≤ edgeCount N A ∧ (∀ a b, A' a b = A' b a) ∧
        (∀ e' ∈ es, e'.1 < e'.2 ∧ e'.2 < N ∧ A' e'.1 e'.2 = 1) := by
      intro A' t' hre
      rw [rewireEdge] at hre
      dsimp only at hre
      by_cases hβ : u t < β
      · rw [if_pos hβ] at hre
        set A1 := setSym A e.1 e.2 0 with hA1
        have hA1sym : ∀ a b, A1 a b = A1 b a := setSym_symm hsym
        have hA1count : edgeCount N A1 + 1 = edgeCount N A :=
          edgeCount_setSym_zero N A e.1 e.2 he1 he2 he3
        have hA1es : ∀ e' ∈ es, e'.1 < e'.2 ∧ e'.2 < N ∧ A1 e'.1 e'.2 = 1 := by
          intro e' he'
          obtain ⟨h1, h2, h3⟩ := hes e' (List.mem_cons_of_mem e he')
          refine ⟨h1, h2, ?_⟩
          rw [hA1, setSym_apply_untouched]
          · exact h3
          · rintro (⟨ha, hb⟩ | ⟨ha, hb⟩)
            · exact (List.nodup_cons.mp hnd).1 ((Prod.ext ha hb : e' = e) ▸ he')
            · omega
        set r := retryLoop N A1 e.1 u 100 (jsFloorNat (u (t + 1) * (N : ℚ))) (t + 2)
          with hr
        by_cases hok : r.2.2 = true
        · rw [if_pos hok] at hre
          obtain ⟨hAval, _⟩ := Prod.mk.injEq .. ▸ hre
          have hnt : r.1 ≠ e.1 ∧ A1 e.1 r.1 ≠ 1 := by
            rw [hr]
            exact retryLoop_true N A1 e.1 u 100 _ _ (by rw [← hr]; exact hok)
          have hntN : r.1 < N := by
            rw [hr]
            exact retryLoop_lt N A1 e.1 u hu hN 100 _ _
              (jsFloorNat_lt (u (t + 1)) N (hu (t + 1)).1 (hu (t + 1)).2 hN)
          have hcount : edgeCount N (setSym A1 e.1 r.1 1) = edgeCount N A1 + 1 :=
            edgeCount_setSym_one N A1 e.1 r.1 (Ne.symm hnt.1) hiN hntN hnt.2
              (by rw [hA1sym]; exact hnt.2)
          refine ⟨?_, ?_, ?_⟩
          · rw [← hAval, hcount]; omega
          · rw [← hAval]; exact setSym_symm hA1sym
          · intro e' he'
            obtain ⟨h1, h2, h3⟩ := hA1es e' he'
            exact ⟨h1, h2, by rw [← hAval]; exact setSym_one_keeps A1 e.1 r.1 e'.1 e'.2 h3⟩
        · rw [if_neg hok] at hre
          obtain ⟨hAval, _⟩ := Prod.mk.injEq .. ▸ hre
          refine ⟨by rw [← hAval]; omega, by rw [← hAval]; exact hA1sym, ?_⟩
          intro e' he'
          obtain ⟨h1, h2, h3⟩ := hA1es e' he'
          exact ⟨h1, h2, by rw [← hAval]; exact h3⟩
      · rw [if_neg hβ] at hre
        obtain ⟨hAval, _⟩ := Prod.mk.injEq .. ▸ hre
        exact ⟨by rw [← hAval], by rw [← hAval]; exact hsym, fun e' he' => by
          rw [← hAval]; exact hes e' (List.mem_cons_of_mem e he')⟩
    obtain ⟨hle, hsym', hes'⟩ := hmain (rewireEdge N β u (A, t) e).1
      (rewireEdge N β u (A, t) e).2 rfl
    calc edgeCount N ((es.foldl (rewireEdge N β u) (rewireEdge N β u (A, t) e)).1)
        ≤ edgeCount N (rewireEdge N β u (A, t) e).1 := by
          have := ih (rewireEdge N β u (A, t) e).1 (rewireEdge N β u (A, t) e).2
            hsym' hes' (List.nodup_cons.mp hnd).2
          simpa using this
      _ ≤ edgeCount N A := hle

/-- C2 (amended): the rewiring phase never increases the edge count.  It
preserves the count for every edge it keeps or successfully rewires, but an
edge whose 100-attempt replacement search is exhausted has already been
deleted and is not replaced, so the total can drop below the ring-lattice
count.  Stated for draws in `[0, 1)` (the range of `Math.random()`) and
`⌊k/2⌋ ≤ N`, where the embedded `(i − j + N) % N` agrees with the source. -/
theorem small_world_edge_count_le (N k : ℕ) (β : ℚ) (u : ℕ → ℚ)
    (hu : ∀ t, 0 ≤ u t ∧ u t < 1) (hN : 1 ≤ N) (hk : k / 2 ≤ N) :
    edgeCount N (createSmallWorld N k β u) ≤ edgeCount N (ringLattice N k) := by
  rw [createSmallWorld]
  exact rewire_foldl_le N β u hu hN (swEdges (ringLattice N k) N) (ringLattice N k) 0
    (ringLattice_symm N k) (fun e he => swEdges_mem he) (swEdges_nodup _ _)

/-- Witness for C2 at a concrete graph and draw stream. -/
theorem small_world_edge_count_le_witness :
    edgeCount 4 (createSmallWorld 4 2 (1 / 2) (fun _ => 0)) ≤
      edgeCount 4 (ringLattice 4 2) :=
  small_world_edge_count_le 4 2 (1 / 2) (fun _ => 0)
    (fun _ => ⟨le_refl 0, by norm_num⟩) (by norm_num) (by norm_num)

/-- When every draw proposes node `i` itself, the retry loop never
succeeds. -/
lemma retryLoop_stuck_at_i (N : ℕ) (A : Adj) (i : ℕ) (u : ℕ → ℚ)
    (hz : ∀ t, jsFloorNat (u t * (N : ℚ)) = i) :
    ∀ fuel t, (retryLoop N A i u fuel i t).2.2 = false := by
  intro fuel
  induction fuel with
  | zero => intro t; rfl
  | succ fuel ih =>
    intro t
    rw [retryLoop, if_pos (Or.inl rfl), hz t]
    exact ih (t + 1)

/-- C2 (counterexample): with `N = 2`, `k = 2`, rewiring probability `1`
and a draw stream that always returns `0`, the single ring edge `(0, 1)` is
removed and every one of the 100 replacement attempts proposes node `0`
itself, so the edge is dropped: the result has 0 edges while the initial
ring lattice has 1. -/
theorem small_world_edge_count_drops :
    edgeCount 2 (createSmallWorld 2 2 1 (fun _ => 0)) = 0 ∧
    edgeCount 2 (ringLattice 2 2) = 1 := by
  have hz : ∀ t : ℕ, jsFloorNat ((fun _ : ℕ => (0 : ℚ)) t * ((2 : ℕ) : ℚ)) = 0 := by
    intro t
    norm_num [jsFloorNat]
  have hsw : createSmallWorld 2 2 1 (fun _ => 0) = setSym (ringLattice 2 2) 0 1 0 := by
    rw [createSmallWorld]
    have hedges : swEdges (ringLattice 2 2) 2 = [(0, 1)] := by decide
    rw [hedges]
    simp only [List.foldl_cons, List.foldl_nil]
    rw [rewireEdge]
    dsimp only
    rw [if_pos (by norm_num : ((fun _ : ℕ => (0 : ℚ)) 0 < 1))]
    rw [hz 1]
    rw [if_neg ?hfalse]
    case hfalse =>
      rw [retryLoop_stuck_at_i 2 _ 0 _ hz 100 2]
      exact Bool.false_ne_true
  rw [hsw]
  constructor
  · decide
  · decide
